import Mathlib

/-!
# sharpener.cpp: averaging ten PPM exposures

A shallow embedding of `src/sharpener.cpp`.

* `std::string` is a `List Char`.
* `data_t` (`unsigned short`) and `int` values are `Nat` / `Int`; every place where the
  C++ code narrows or could wrap carries an explicit bound or `% 65536`.
* An `ifstream` is a record: whether a file is attached, the file's characters, the
  characters not read yet, and the `eofbit` / `failbit` flags.  `badbit` (a device error
  while reading) is not modelled.
* Formatted extraction (`operator>>`) follows the GNU C++ library: a sentry that skips
  white space and fails on a stream that is not good, then the `num_get` scan of an
  optional sign and decimal digits.  A target is left untouched when the sentry fails,
  is set to `0` when no digit is found and to the type's extreme value on overflow.
* A local variable that the C++ code declares without an initialiser (`maxVal` in
  `readHeader`, `temp` in `calcPixelAverage`, the pixel grid of `image` in `main`) is an
  explicit argument holding its indeterminate starting value.
-/

namespace Sharpener

/-! ## Constants and data types -/

/-- The C++ `EXT` -/
def EXT : List Char := ['.', 'p', 'p', 'm']

/-- The C++ `IMG_DIR` -/
def IMG_DIR : List Char := ['i', 'm', 'a', 'g', 'e', 'F', 'i', 'l', 'e', 's', '/']

/-- The C++ `EXIT_SUCCESS` -/
def EXIT_SUCCESS : Nat := 0

/-- The C++ `EXIT_FAILURE` -/
def EXIT_FAILURE : Nat := 1

/-- Largest value of `data_t = unsigned short`. -/
def USHRT_MAX : Nat := 65535

/-- Largest value of `int`. -/
def INT_MAX : Int := 2147483647

/-- Smallest value of `int`. -/
def INT_MIN : Int := -2147483648

/-- The C++ `struct pixel_t`: three `data_t` channels. -/
structure pixel_t where
  red : Nat
  green : Nat
  blue : Nat
deriving DecidableEq, Repr

/-- The C++ `pixel_t::MAX_VAL` -/
def pixel_t.MAX_VAL : Nat := 255

/-- The C++ `struct image_t`: `width`, `height` and the grid `data[row][column]`. -/
structure image_t where
  width : Nat
  height : Nat
  data : Nat → Nat → pixel_t

/-- The C++ `image_t::MAX_DIMENSION` -/
def image_t.MAX_DIMENSION : Nat := 600

/-! ## Input streams -/

/-- State of one `std::ifstream`. -/
structure ifstream where
  /-- The C++ `is_open()` -/
  isOpen : Bool
  /-- all characters of the attached file -/
  content : List Char
  /-- the characters from the get position to the end of the file -/
  rest : List Char
  eofbit : Bool
  failbit : Bool
deriving DecidableEq, Repr

namespace ifstream

/-- A default-constructed `ifstream`. -/
def closed : ifstream :=
  { isOpen := false, content := [], rest := [], eofbit := false, failbit := false }

/-- The C++ `good()` -/
def good (s : ifstream) : Bool := !s.eofbit && !s.failbit

/-- The C++ `operator!`, that is `fail()` -/
def fail (s : ifstream) : Bool := s.failbit

/-- The C++ `open(name)`: `file` is the content of the named file when it can be opened. -/
def openFile (s : ifstream) (file : Option (List Char)) : ifstream :=
  match file with
  | some cs => { isOpen := true, content := cs, rest := cs, eofbit := false, failbit := false }
  | none => { s with failbit := true }

/-- The C++ `clear()` -/
def clear (s : ifstream) : ifstream := { s with eofbit := false, failbit := false }

/-- The C++ `seekg(0, ios::beg)`: clears `eofbit`; unless the stream has failed it moves the get
position to the start, which fails when no file is attached. -/
def seekgBeg (s : ifstream) : ifstream :=
  let s1 := { s with eofbit := false }
  if s1.failbit then s1
  else if s1.isOpen then { s1 with rest := s1.content }
  else { s1 with failbit := true }

/-- The C++ `close()`: fails when no file is attached. -/
def close (s : ifstream) : ifstream :=
  if s.isOpen then { s with isOpen := false, rest := [] } else { s with failbit := true }

end ifstream

/-- The C++ `isspace` in the "C" locale. -/
def isspace (c : Char) : Bool :=
  c == ' ' || c == '\t' || c == '\n' || c == '\x0b' || c == '\x0c' || c == '\r'

/-- The `istream::sentry` of a formatted input function: on a good stream it skips white
space and fails with `eofbit | failbit` at the end of the file; on a stream that is not
good it sets `failbit`.  The `Bool` tells whether extraction may proceed. -/
def sentry (s : ifstream) : ifstream × Bool :=
  if s.good then
    let r := s.rest.dropWhile isspace
    if r.isEmpty then ({ s with rest := r, eofbit := true, failbit := true }, false)
    else ({ s with rest := r }, true)
  else ({ s with failbit := true }, false)

/-- The C++ `infile >> str` for a `std::string`: after the sentry, takes characters up to the next
white space or the end of the file. -/
def extractString (s : ifstream) (str : List Char) : ifstream × List Char :=
  let (s1, ok) := sentry s
  if ok then
    let tok := s1.rest.takeWhile (fun c => !isspace c)
    let r := s1.rest.dropWhile (fun c => !isspace c)
    ({ s1 with rest := r, eofbit := r.isEmpty, failbit := tok.isEmpty }, tok)
  else (s1, str)

/-- Value of a run of decimal digits, most significant first. -/
def digitsVal (ds : List Char) : Nat :=
  ds.foldl (fun a c => 10 * a + (c.toNat - 48)) 0

/-- Result of the `num_get` scan of one integer field. -/
structure NumScan where
  negative : Bool
  digits : List Char
  rest : List Char
deriving DecidableEq, Repr

/-- The `num_get` scan in base ten: an optional sign, then every decimal digit that follows. -/
def numScan (cs : List Char) : NumScan :=
  let negative := cs.head? == some '-'
  let body := if cs.head? == some '-' || cs.head? == some '+' then cs.tail else cs
  { negative := negative, digits := body.takeWhile Char.isDigit,
    rest := body.dropWhile Char.isDigit }

/-- The C++ `infile >> v` for `v` of type `unsigned short`.  Returns the stream and the new value
of `v`. -/
def extractUShort (s : ifstream) (v : Nat) : ifstream × Nat :=
  let (s1, ok) := sentry s
  if ok then
    let n := numScan s1.rest
    let m := digitsVal n.digits
    let s2 := { s1 with rest := n.rest, eofbit := n.rest.isEmpty }
    if n.digits.isEmpty then ({ s2 with failbit := true }, 0)
    else if m > USHRT_MAX then ({ s2 with failbit := true }, USHRT_MAX)
    else (s2, if n.negative then (65536 - m) % 65536 else m)
  else (s1, v)

/-- The C++ `infile >> v` for `v` of type `int`: the field is read as a `long` and clamped
to the range of `int`, setting `failbit` when it does not fit. -/
def extractInt (s : ifstream) (v : Int) : ifstream × Int :=
  let (s1, ok) := sentry s
  if ok then
    let n := numScan s1.rest
    let m : Int := if n.negative then -(digitsVal n.digits : Int) else (digitsVal n.digits : Int)
    let s2 := { s1 with rest := n.rest, eofbit := n.rest.isEmpty }
    if n.digits.isEmpty then ({ s2 with failbit := true }, 0)
    else if m < INT_MIN then ({ s2 with failbit := true }, INT_MIN)
    else if m > INT_MAX then ({ s2 with failbit := true }, INT_MAX)
    else (s2, m)
  else (s1, v)

/-- The C++ `for (int i = 0; i < n; ++i) body`, as a state transformer. -/
def forLoop {σ : Type} (n : Nat) (body : Nat → σ → σ) (init : σ) : σ :=
  match n with
  | 0 => init
  | k + 1 => body k (forLoop k body init)

/-- Assignment to element `i` of an array. -/
def setAt {α : Type} (a : Nat → α) (i : Nat) (v : α) : Nat → α :=
  fun j => if j = i then v else a j

/-! ## The functions of `sharpener.cpp` -/

/-- The string literal `"P3"`. -/
def P3 : List Char := ['P', '3']

/-- The C++ `readHeader(infile, image)`.  `maxVal0` is the indeterminate starting value of the
local `maxVal`.  Returns `isValid`, the stream and the image. -/
def readHeader (infile : ifstream) (image : image_t) (maxVal0 : Int) :
    Bool × ifstream × image_t :=
  let (f1, magic) := extractString infile []
  let (f2, width) := extractUShort f1 image.width
  let (f3, height) := extractUShort f2 image.height
  let (f4, maxVal) := extractInt f3 maxVal0
  let image1 := { image with width := width, height := height }
  let isValid :=
    if magic != P3 || maxVal != (pixel_t.MAX_VAL : Int) ||
        image1.width > image_t.MAX_DIMENSION || image1.height > image_t.MAX_DIMENSION
    then false else true
  (isValid, f4, image1)

/-- Loop state of `validateFiles`. -/
structure ValidateState where
  fin : Nat → ifstream
  image : image_t
  tempImage : image_t
  isValid : Bool

/-- Body of the loop of `validateFiles` for stream `i`. -/
def validateFilesBody (maxVal0 : Nat → Int) (i : Nat) (st : ValidateState) : ValidateState :=
  let f := ((st.fin i).clear).seekgBeg
  if f.fail then
    { st with fin := setAt st.fin i f, isValid := false }
  else
    let (ok, f1, temp1) := readHeader f st.tempImage (maxVal0 i)
    let st1 := { st with fin := setAt st.fin i f1, tempImage := temp1 }
    if !ok then { st1 with isValid := false }
    else if i == 0 then
      { st1 with image := { st1.image with width := temp1.width, height := temp1.height } }
    else if st1.image.width != temp1.width || st1.image.height != temp1.height then
      { st1 with isValid := false }
    else st1

/-- State of `validateFiles` before its loop.  The grid of the local `tempImage` is never
read or written, so it is given the grid of `image`. -/
def validateFilesInit (fin : Nat → ifstream) (image : image_t) : ValidateState :=
  { fin := fin, image := image,
    tempImage := { width := 0, height := 0, data := image.data }, isValid := true }

/-- State of `validateFiles` after the first `n` iterations of its loop. -/
def validateFilesLoop (fin : Nat → ifstream) (image : image_t) (maxVal0 : Nat → Int)
    (n : Nat) : ValidateState :=
  forLoop n (validateFilesBody maxVal0) (validateFilesInit fin image)

/-- The C++ `validateFiles(fin, image)`.  `maxVal0 i` is the indeterminate starting value of
`maxVal` in the call of `readHeader` for stream `i`. -/
def validateFiles (fin : Nat → ifstream) (image : image_t) (maxVal0 : Nat → Int) :
    Bool × (Nat → ifstream) × image_t :=
  let st := validateFilesLoop fin image maxVal0 10
  (st.isValid, st.fin, st.image)

/-- The C++ `readPixel(infile, pixel)` -/
def readPixel (infile : ifstream) (pixel : pixel_t) : ifstream × pixel_t :=
  let (f1, red) := extractUShort infile pixel.red
  let (f2, green) := extractUShort f1 pixel.green
  let (f3, blue) := extractUShort f2 pixel.blue
  (f3, { red := red, green := green, blue := blue })

/-- Loop state of `calcPixelAverage`.  The `int` totals are sums of at most ten
`unsigned short` values and are kept as natural numbers. -/
structure AverageState where
  fin : Nat → ifstream
  temp : pixel_t
  totalRed : Nat
  totalGreen : Nat
  totalBlue : Nat

/-- Body of the loop of `calcPixelAverage` for stream `i`. -/
def calcPixelAverageBody (i : Nat) (st : AverageState) : AverageState :=
  let (f, temp) := readPixel (st.fin i) st.temp
  { fin := setAt st.fin i f, temp := temp,
    totalRed := st.totalRed + temp.red,
    totalGreen := st.totalGreen + temp.green,
    totalBlue := st.totalBlue + temp.blue }

/-- State of `calcPixelAverage` after the first `n` iterations of its loop. -/
def calcPixelAverageLoop (fin : Nat → ifstream) (temp0 : pixel_t) (n : Nat) : AverageState :=
  forLoop n calcPixelAverageBody
    { fin := fin, temp := temp0, totalRed := 0, totalGreen := 0, totalBlue := 0 }

/-- The C++ `static_cast<data_t>` of a non-negative `int`. -/
def toData (n : Nat) : Nat := n % 65536

/-- The C++ `calcPixelAverage(fin, pixel)`.  `temp0` is the indeterminate starting value of the
local `temp`.  Returns the streams and the value stored in `pixel`. -/
def calcPixelAverage (fin : Nat → ifstream) (temp0 : pixel_t) : (Nat → ifstream) × pixel_t :=
  let st := calcPixelAverageLoop fin temp0 10
  (st.fin, { red := toData (st.totalRed / 10), green := toData (st.totalGreen / 10),
             blue := toData (st.totalBlue / 10) })

/-- Loop state of `processImageFiles`. -/
structure ProcessState where
  fin : Nat → ifstream
  image : image_t

/-- Assignment to `data[y][x]`. -/
def setPixel (data : Nat → Nat → pixel_t) (y x : Nat) (p : pixel_t) : Nat → Nat → pixel_t :=
  fun r c => if r = y ∧ c = x then p else data r c

/-- Body of the inner loop of `processImageFiles`: grid cell `(y, x)`. -/
def processCell (temp0 : Nat → Nat → pixel_t) (y x : Nat) (st : ProcessState) : ProcessState :=
  let c := calcPixelAverage st.fin (temp0 y x)
  { fin := c.1, image := { st.image with data := setPixel st.image.data y x c.2 } }

/-- Body of the outer loop of `processImageFiles`: row `y`. -/
def processRow (temp0 : Nat → Nat → pixel_t) (width : Nat) (y : Nat) (st : ProcessState) :
    ProcessState :=
  forLoop width (processCell temp0 y) st

/-- The C++ `processImageFiles(fin, image)`.  `temp0 y x` is the indeterminate starting value of
`temp` in the call of `calcPixelAverage` for cell `(y, x)`.  The loop bounds
`image.height` and `image.width` are not changed by the loop bodies. -/
def processImageFiles (fin : Nat → ifstream) (image : image_t) (temp0 : Nat → Nat → pixel_t) :
    ProcessState :=
  forLoop image.height (processRow temp0 image.width) { fin := fin, image := image }

/-! ## Output -/

/-- The C++ `outfile << n` for an unsigned integer: its decimal digits. -/
def putNat (outfile : List Char) (n : Nat) : List Char := outfile ++ Nat.toDigits 10 n

/-- The C++ `writeHeader(outfile, image)`; an `ofstream` is the list of characters written. -/
def writeHeader (outfile : List Char) (image : image_t) : List Char :=
  putNat (putNat (putNat (outfile ++ ['P', '3', '\n']) image.width ++ [' ']) image.height
    ++ ['\n']) pixel_t.MAX_VAL ++ ['\n']

/-- The C++ `writePixel(outfile, pixel)` -/
def writePixel (outfile : List Char) (pixel : pixel_t) : List Char :=
  putNat (putNat (putNat outfile pixel.red ++ [' ']) pixel.green ++ [' ']) pixel.blue ++ ['\n']

/-- The C++ `writePixels(outfile, image)` -/
def writePixels (outfile : List Char) (image : image_t) : List Char :=
  forLoop image.height
    (fun y out => forLoop image.width (fun x o => writePixel o (image.data y x)) out) outfile

/-- The C++ `writeImage(fnOut, image)`.  `opens` tells whether `fnOut` can be opened for writing.
Returns the new `exitState` and the content of the file when it was written. -/
def writeImage (opens : Bool) (image : image_t) (exitState : Nat) : Nat × Option (List Char) :=
  if !opens then (EXIT_FAILURE, none)
  else (exitState, some (writePixels (writeHeader [] image) image))

/-! ## File names, opening and closing, `main` -/

/-- The C++ `setw(w) << setfill(c) << s` for a string `s`: padded on the left up to width `w`. -/
def setwFill (w : Nat) (c : Char) (s : List Char) : List Char :=
  List.replicate (w - s.length) c ++ s

/-- The C++ `populateInputFileNames(names, name)`: element `i` of `names`. -/
def populateInputFileNames (name : List Char) : Nat → List Char :=
  forLoop 10
    (fun i names => setAt names i
      (IMG_DIR ++ name ++ ['/'] ++ name ++ ['_'] ++ setwFill 3 '0' (Nat.toDigits 10 (i + 1)) ++ EXT))
    (fun _ => [])

/-- The files the program can see: the content of each file that can be opened for
reading, and whether a name can be opened for writing. -/
structure FileSystem where
  read : List Char → Option (List Char)
  writable : List Char → Bool

/-- Body of the loop of `openInputFiles` for stream `i`; the state is the array of streams
and the global `exitState`. -/
def openInputFilesBody (fs : FileSystem) (names : Nat → List Char) (i : Nat)
    (st : (Nat → ifstream) × Nat) : (Nat → ifstream) × Nat :=
  let f := (st.1 i).openFile (fs.read (names i))
  (setAt st.1 i f, if f.fail then EXIT_FAILURE else st.2)

/-- The C++ `openInputFiles(fin, names)`, threading the global `exitState`. -/
def openInputFiles (fs : FileSystem) (fin : Nat → ifstream) (names : Nat → List Char)
    (exitState : Nat) : (Nat → ifstream) × Nat :=
  forLoop 10 (openInputFilesBody fs names) (fin, exitState)

/-- The C++ `closeInputFiles(fin)` -/
def closeInputFiles (fin : Nat → ifstream) : Nat → ifstream :=
  forLoop 10 (fun i f => setAt f i (f i).close) fin

/-- The calls of `main` that the claims speak about. -/
inductive Call where
  | processImageFiles
  | writeImage
  | closeInputFiles
deriving DecidableEq, Repr

/-- Indeterminate starting values of the uninitialised locals met in one run of `main`. -/
structure Indeterminate where
  /-- The C++ `maxVal` in the calls of `readHeader` made by `main` itself -/
  headerMaxVal : Nat → Int
  /-- The C++ `maxVal` in the calls of `readHeader` made by `validateFiles` -/
  validateMaxVal : Nat → Int
  /-- the grid of `image` -/
  data : Nat → Nat → pixel_t
  /-- The C++ `temp` in the call of `calcPixelAverage` for each cell -/
  temp : Nat → Nat → pixel_t

/-- What one run of `main` leaves behind. -/
structure MainResult where
  exitState : Nat
  calls : List Call
  fin : Nat → ifstream
  image : image_t
  /-- name and content of the file written -/
  output : Option (List Char × List Char)

/-- The streams and `exitState` in `main` after `openInputFiles`. -/
def mainOpened (name : List Char) (fs : FileSystem) : (Nat → ifstream) × Nat :=
  openInputFiles fs (fun _ => ifstream.closed) (populateInputFileNames name) EXIT_SUCCESS

/-- Body of the loop of `main` that calls `readHeader` on stream `i` and ignores what it
returns; the state is the array of streams and `image`. -/
def mainHeadersBody (u : Indeterminate) (i : Nat) (st : (Nat → ifstream) × image_t) :
    (Nat → ifstream) × image_t :=
  let h := readHeader (st.1 i) st.2 (u.headerMaxVal i)
  (setAt st.1 i h.2.1, h.2.2)

/-- The streams and the image in `main` after its loop of `readHeader` calls. -/
def mainHeaders (name : List Char) (fs : FileSystem) (u : Indeterminate) :
    (Nat → ifstream) × image_t :=
  forLoop 10 (mainHeadersBody u)
    ((mainOpened name fs).1, { width := 0, height := 0, data := u.data })

/-- The call `validateFiles(fin, image)` made by `main`. -/
def mainValidate (name : List Char) (fs : FileSystem) (u : Indeterminate) :
    Bool × (Nat → ifstream) × image_t :=
  validateFiles (mainHeaders name fs u).1 (mainHeaders name fs u).2 u.validateMaxVal

/-- The `else` branch of `main`, for the base name `name = argv[1]`; the global
`exitState` is `EXIT_SUCCESS` before it. -/
def mainRun (name : List Char) (fs : FileSystem) (u : Indeterminate) : MainResult :=
  let outputFileName := IMG_DIR ++ name ++ EXT
  let exitState1 := (mainOpened name fs).2
  let v := mainValidate name fs u
  let r1 : MainResult :=
    if !v.1 then
      { exitState := EXIT_FAILURE, calls := [Call.closeInputFiles],
        fin := closeInputFiles v.2.1, image := v.2.2, output := none }
    else
      { exitState := exitState1, calls := [], fin := v.2.1, image := v.2.2, output := none }
  if r1.exitState == EXIT_SUCCESS then
    let p := processImageFiles r1.fin r1.image u.temp
    let w := writeImage (fs.writable outputFileName) p.image r1.exitState
    { exitState := w.1,
      calls := r1.calls ++ [Call.processImageFiles, Call.writeImage, Call.closeInputFiles],
      fin := closeInputFiles p.fin, image := p.image,
      output := w.2.map (fun c => (outputFileName, c)) }
  else r1

/-- The C++ `main(argc, argv)` with `argc = argv.length`; the global `exitState` starts as
`EXIT_SUCCESS`. -/
def main (argv : List (List Char)) (fs : FileSystem) (u : Indeterminate) : MainResult :=
  if argv.length != 2 then
    { exitState := EXIT_FAILURE, calls := [], fin := fun _ => ifstream.closed,
      image := { width := 0, height := 0, data := u.data }, output := none }
  else mainRun (argv.getD 1 []) fs u

/-! ## Well-formed input -/

/-- Nothing follows, or white space follows: the end of a white-space-delimited token. -/
def Delimited (r : List Char) : Prop := ∀ c ∈ r.head?, isspace c = true

instance (r : List Char) : Decidable (Delimited r) :=
  inferInstanceAs (Decidable (∀ c ∈ r.head?, isspace c = true))

/-- The characters `cs` are white space, then the word `tok`, then `r`. -/
def HoldsWord (cs : List Char) (tok : List Char) (r : List Char) : Prop :=
  ∃ ws, cs = ws ++ tok ++ r ∧ (∀ c ∈ ws, isspace c = true) ∧ tok ≠ [] ∧
    (∀ c ∈ tok, isspace c = false) ∧ Delimited r

/-- The characters `cs` are white space, then a decimal numeral of value `v`, then `r`. -/
def HoldsNat (cs : List Char) (v : Nat) (r : List Char) : Prop :=
  ∃ ws ds, cs = ws ++ ds ++ r ∧ (∀ c ∈ ws, isspace c = true) ∧ ds ≠ [] ∧
    (∀ c ∈ ds, c.isDigit = true) ∧ digitsVal ds = v ∧ Delimited r

/-- The stream `s` after its get position moved to the suffix `r` with no failure. -/
def advance (s : ifstream) (r : List Char) : ifstream :=
  { s with rest := r, eofbit := r.isEmpty }

/-- The characters `cs` are a four-token header `magic w h m` followed by `r`. -/
def HoldsHeader (cs : List Char) (magic : List Char) (w h m : Nat) (r : List Char) : Prop :=
  ∃ r1 r2 r3, HoldsWord cs magic r1 ∧ HoldsNat r1 w r2 ∧ HoldsNat r2 h r3 ∧ HoldsNat r3 m r

/-- A stream freshly opened on a file with the characters `cs`. -/
def streamOf (cs : List Char) : ifstream := ifstream.closed.openFile (some cs)

/-- An image with the given dimensions whose cells all hold one pixel. -/
def blankImage (w h : Nat) : image_t :=
  { width := w, height := h, data := fun _ _ => { red := 0, green := 0, blue := 0 } }

/-- Stream `i` of `validateFiles` after `clear()` and `seekg(0, ios::beg)`. -/
def rewound (fin : Nat → ifstream) (i : Nat) : ifstream := ((fin i).clear).seekgBeg

/-- What the call of `readHeader` for stream `i` inside `validateFiles` returns: it runs on
the rewound stream and on `tempImage` as the earlier iterations left it. -/
def headerResult (fin : Nat → ifstream) (image : image_t) (maxVal0 : Nat → Int) (i : Nat) :
    Bool × ifstream × image_t :=
  readHeader (rewound fin i) (validateFilesLoop fin image maxVal0 i).tempImage (maxVal0 i)

/-- The characters `cs` start with a header that declares something `readHeader` must
reject: a magic word other than `P3`, or after it a width above 600, or after that a
height above 600, or after that a maxval other than 255. -/
def DeclaresInvalid (cs : List Char) : Prop :=
  ∃ magic r1, HoldsWord cs magic r1 ∧
    (magic ≠ P3 ∨ ∃ w r2, HoldsNat r1 w r2 ∧
      (w > 600 ∨ ∃ h r3, HoldsNat r2 h r3 ∧
        (h > 600 ∨ ∃ m r, HoldsNat r3 m r ∧ m ≠ 255)))

/-- Ten streams, each freshly opened on the file `files i`. -/
def streamsOf (files : Nat → List Char) : Nat → ifstream := fun i => streamOf (files i)

/-- A file system in which exposure `i` of the base name `name` holds `files i`, no other
file can be read, and every name can be opened for writing exactly when `writable`. -/
def fileSystemOf (name : List Char) (files : Nat → List Char) (writable : Bool) : FileSystem :=
  { read := fun n =>
      ((List.range 10).find? (fun i => populateInputFileNames name i == n)).map files,
    writable := fun _ => writable }

/-- Indeterminate values that are all zero. -/
def zeroIndeterminate : Indeterminate :=
  { headerMaxVal := fun _ => 0, validateMaxVal := fun _ => 0,
    data := fun _ _ => { red := 0, green := 0, blue := 0 },
    temp := fun _ _ => { red := 0, green := 0, blue := 0 } }

/-- Nine exposures that declare 4x4 and a last one that declares 4x5. -/
def mismatchFiles (i : Nat) : List Char :=
  if i = 9 then "P3 4 5 255\n".toList else "P3 4 4 255\n".toList

/-- The characters `cs` are the RGB triples `ps`, one decimal numeral per channel, followed
by `r`. -/
def HoldsPixels : List Char → List pixel_t → List Char → Prop
  | cs, [], r => cs = r
  | cs, p :: ps, r =>
    ∃ r1 r2 r3, HoldsNat cs p.red r1 ∧ HoldsNat r1 p.green r2 ∧ HoldsNat r2 p.blue r3 ∧
      HoldsPixels r3 ps r

/-- The stream `s` has not failed and what it has not read yet are the triples `ps`
followed by `r`. -/
def StreamHolds (s : ifstream) (ps : List pixel_t) (r : List Char) : Prop :=
  s.failbit = false ∧ (s.eofbit = true → s.rest = []) ∧ HoldsPixels s.rest ps r

/-- Every channel of `p` is at most `b`. -/
def pixel_t.Within (p : pixel_t) (b : Nat) : Prop := p.red ≤ b ∧ p.green ≤ b ∧ p.blue ≤ b

/-- The pixel whose channels are the truncated means of the channels of `p 0 .. p 9`. -/
def averageOf (p : Nat → pixel_t) : pixel_t :=
  { red := (∑ i ∈ Finset.range 10, (p i).red) / 10,
    green := (∑ i ∈ Finset.range 10, (p i).green) / 10,
    blue := (∑ i ∈ Finset.range 10, (p i).blue) / 10 }

/-- The pixel with all channels zero. -/
def zeroPixel : pixel_t := { red := 0, green := 0, blue := 0 }

/-- The text that `writePixel` emits for each pixel of `ps` in turn. -/
def pixelLines : List pixel_t → List Char
  | [] => []
  | p :: ps => writePixel [] p ++ pixelLines ps

/-- The only pixel of demonstration exposure `i`: red runs through 10, 20, ..., 100, green
is 9 in the last exposure and 0 in the others, blue is always 7. -/
def demoPixel (i : Nat) : pixel_t :=
  { red := 10 * (i + 1), green := if i = 9 then 9 else 0, blue := 7 }

/-- A well-formed 1x1 exposure whose only pixel is `p`: the header that `writeHeader`
emits, then the line that `writePixel` emits. -/
def exposureOf (p : pixel_t) : List Char :=
  writeHeader [] (blankImage 1 1) ++ pixelLines [p]

/-- The line of text for one pixel: `red green blue` in decimal, then a newline. -/
def lineOf (p : pixel_t) : List Char :=
  Nat.toDigits 10 p.red ++ [' '] ++ Nat.toDigits 10 p.green ++ [' '] ++
    Nat.toDigits 10 p.blue ++ ['\n']

/-- The pixels of the logical extent of `image` in row-major order. -/
def rowMajor (image : image_t) : List pixel_t :=
  (List.range (image.height * image.width)).map
    (fun k => image.data (k / image.width) (k % image.width))

/-- The pixel lines of `image`, one per pixel of the logical extent in row-major order. -/
def imageLines (image : image_t) : List (List Char) := (rowMajor image).map lineOf

/-- The stream and the pixel variable after `n` successive calls `readPixel(s, pixel)`. -/
def readPixels (s : ifstream) (t0 : pixel_t) : Nat → ifstream × pixel_t
  | 0 => (s, t0)
  | n + 1 => readPixel (readPixels s t0 n).1 (readPixels s t0 n).2

/-- A 2x1 image whose two pixels are `0 255 65535` and `7 8 9`. -/
def demoImage : image_t :=
  { width := 2, height := 1,
    data := fun _ x =>
      if x = 0 then { red := 0, green := 255, blue := 65535 }
      else { red := 7, green := 8, blue := 9 } }

/-- The characters `cs` start with a magic word, a width `w` and a height `h`, each a
white-space-delimited token, and go on with `r`. -/
def HoldsDims (cs : List Char) (magic : List Char) (w h : Nat) (r : List Char) : Prop :=
  ∃ r1 r2, HoldsWord cs magic r1 ∧ HoldsNat r1 w r2 ∧ HoldsNat r2 h r

/-- The four pixels of a 2x2 exposure in which every pixel is `1 2 3`. -/
def identicalPixels : List pixel_t :=
  List.replicate 4 { red := 1, green := 2, blue := 3 }

instance (p : pixel_t) (b : Nat) : Decidable (p.Within b) :=
  inferInstanceAs (Decidable (p.red ≤ b ∧ p.green ≤ b ∧ p.blue ≤ b))

/-- The value of `temp` in `calcPixelAverage` right after `readPixel(fin[i], temp)`: the
reading taken from stream `i`. -/
def reading (fin : Nat → ifstream) (temp0 : pixel_t) (i : Nat) : pixel_t :=
  (calcPixelAverageLoop fin temp0 (i + 1)).temp

/-- An `image_t` right after its declaration `image_t image;`: the member initialisers set
`width` and `height` to 0 and the grid holds the indeterminate `data`. -/
def image_t.declared (data : Nat → Nat → pixel_t) : image_t :=
  { width := 0, height := 0, data := data }

/-- Passing from the characters `cs` over exactly `n` white-space-delimited decimal
numerals leaves `r`. -/
def Consumed : List Char → Nat → List Char → Prop
  | cs, 0, r => cs = r
  | cs, n + 1, r => ∃ v r1, HoldsNat cs v r1 ∧ Consumed r1 n r

/-- The state of `processImageFiles` right before it computes cell `(y, x)`: rows
`0 .. y - 1` are done and so are columns `0 .. x - 1` of row `y`. -/
def processBefore (fin : Nat → ifstream) (image : image_t) (temp0 : Nat → Nat → pixel_t)
    (y x : Nat) : ProcessState :=
  forLoop x (processCell temp0 y)
    (forLoop y (processRow temp0 image.width) { fin := fin, image := image })

/-- An exposure whose maxval token is glued to a letter: `P3 1 1 255x`, then the pixel
`1 2 3`. -/
def gluedFile : List Char := "P3 1 1 255x 1 2 3\n".toList

theorem isspace_not_isDigit (c : Char) (h : isspace c = true) : c.isDigit = false := by
  simp only [isspace, Bool.or_eq_true, beq_iff_eq] at h
  rcases h with ((((h | h) | h) | h) | h) | h <;> subst h <;> decide

theorem isDigit_not_isspace (c : Char) (h : c.isDigit = true) : isspace c = false := by
  cases hs : isspace c
  · rfl
  · rw [isspace_not_isDigit c hs] at h; exact absurd h (by decide)

theorem dropWhile_append_of_all {p : Char → Bool} (ws r : List Char)
    (hws : ∀ c ∈ ws, p c = true) (hr : ∀ c ∈ r.head?, p c = false) :
    (ws ++ r).dropWhile p = r := by
  induction ws with
  | nil =>
    cases r with
    | nil => rfl
    | cons c t => simp [List.dropWhile, hr c (by simp)]
  | cons a t ih =>
    have ha : p a = true := hws a (by simp)
    rw [List.cons_append, List.dropWhile_cons, ha]
    simp only [if_true]
    exact ih (fun c hc => hws c (by simp [hc]))

theorem takeWhile_append_of_all {p : Char → Bool} (ws r : List Char)
    (hws : ∀ c ∈ ws, p c = true) (hr : ∀ c ∈ r.head?, p c = false) :
    (ws ++ r).takeWhile p = ws := by
  induction ws with
  | nil =>
    cases r with
    | nil => rfl
    | cons c t => simp [List.takeWhile, hr c (by simp)]
  | cons a t ih =>
    have ha : p a = true := hws a (by simp)
    rw [List.cons_append, List.takeWhile_cons, ha]
    simp only [if_true]
    rw [ih (fun c hc => hws c (by simp [hc]))]

theorem advance_good (s : ifstream) (r : List Char) (hs : s.good = true) (hr : r ≠ []) :
    (advance s r).good = true := by
  cases r with
  | nil => exact absurd rfl hr
  | cons c t =>
    simp only [ifstream.good, Bool.and_eq_true, Bool.not_eq_true'] at hs
    simp [advance, ifstream.good, hs.2]

theorem HoldsNat.ne_nil {cs : List Char} {v : Nat} {r : List Char} (h : HoldsNat cs v r) :
    cs ≠ [] := by
  obtain ⟨ws, ds, rfl, -, hds, -⟩ := h
  intro hnil
  simp only [List.append_eq_nil] at hnil
  exact hds hnil.1.2

theorem sentry_of_holds (s : ifstream) (ws body : List Char) (hs : s.good = true)
    (hrest : s.rest = ws ++ body) (hws : ∀ c ∈ ws, isspace c = true) (hne : body ≠ [])
    (hb : ∀ c ∈ body.head?, isspace c = false) :
    sentry s = ({ s with rest := body }, true) := by
  have hd : s.rest.dropWhile isspace = body := by
    rw [hrest]; exact dropWhile_append_of_all ws body hws hb
  cases body with
  | nil => exact absurd rfl hne
  | cons c t => simp [sentry, hs, hd]

theorem numScan_digits (ds r : List Char) (hne : ds ≠ []) (hds : ∀ c ∈ ds, c.isDigit = true)
    (hr : ∀ c ∈ r.head?, c.isDigit = false) :
    numScan (ds ++ r) = { negative := false, digits := ds, rest := r } := by
  cases ds with
  | nil => exact absurd rfl hne
  | cons d t =>
    have hd : d.isDigit = true := hds d (by simp)
    have hm : d ≠ '-' := by rintro rfl; exact absurd hd (by decide)
    have hp : d ≠ '+' := by rintro rfl; exact absurd hd (by decide)
    have h1 : ((d :: t) ++ r).takeWhile Char.isDigit = d :: t :=
      takeWhile_append_of_all (d :: t) r hds hr
    have h2 : ((d :: t) ++ r).dropWhile Char.isDigit = r :=
      dropWhile_append_of_all (d :: t) r hds hr
    simp only [List.cons_append] at h1 h2
    simp [numScan, h1, h2, hm, hp]

theorem Delimited.not_digit {r : List Char} (h : Delimited r) :
    ∀ c ∈ r.head?, c.isDigit = false :=
  fun c hc => isspace_not_isDigit c (h c hc)

theorem head_digits_append (ds r : List Char) (hne : ds ≠ [])
    (hds : ∀ c ∈ ds, c.isDigit = true) : ∀ c ∈ (ds ++ r).head?, isspace c = false := by
  cases ds with
  | nil => exact absurd rfl hne
  | cons d t =>
    intro c hc
    simp only [List.cons_append, List.head?_cons, Option.mem_def, Option.some.injEq] at hc
    subst hc
    exact isDigit_not_isspace d (hds d (by simp))

theorem extractUShort_of_holds (s : ifstream) (v0 v : Nat) (r : List Char)
    (hs : s.good = true) (h : HoldsNat s.rest v r) (hv : v ≤ 65535) :
    extractUShort s v0 = (advance s r, v) := by
  obtain ⟨ws, ds, hrest, hws, hne, hds, hval, hr⟩ := h
  have hbody : ds ++ r ≠ [] := by simp [hne]
  have hsen := sentry_of_holds s ws (ds ++ r) hs (by rw [hrest, List.append_assoc]) hws hbody
    (head_digits_append ds r hne hds)
  have hscan := numScan_digits ds r hne hds hr.not_digit
  have hne2 : ds.isEmpty = false := by cases ds <;> simp_all
  subst hval
  have hle : ¬ digitsVal ds > USHRT_MAX := by simp only [USHRT_MAX]; omega
  simp only [extractUShort, hsen, hscan, if_true, hne2, Bool.false_eq_true, if_false, hle,
    advance]

theorem extractInt_of_holds (s : ifstream) (v0 : Int) (v : Nat) (r : List Char)
    (hs : s.good = true) (h : HoldsNat s.rest v r) (hv : v ≤ 2147483647) :
    extractInt s v0 = (advance s r, (v : Int)) := by
  obtain ⟨ws, ds, hrest, hws, hne, hds, hval, hr⟩ := h
  have hbody : ds ++ r ≠ [] := by simp [hne]
  have hsen := sentry_of_holds s ws (ds ++ r) hs (by rw [hrest, List.append_assoc]) hws hbody
    (head_digits_append ds r hne hds)
  have hscan := numScan_digits ds r hne hds hr.not_digit
  have hne2 : ds.isEmpty = false := by cases ds <;> simp_all
  subst hval
  have h1 : ¬ ((digitsVal ds : Nat) : Int) < INT_MIN := by
    simp only [INT_MIN]; omega
  have h2 : ¬ ((digitsVal ds : Nat) : Int) > INT_MAX := by
    simp only [INT_MAX]; omega
  simp only [extractInt, hsen, hscan, if_true, hne2, Bool.false_eq_true, if_false, h1, h2,
    advance]

theorem extractString_of_holds (s : ifstream) (str tok r : List Char)
    (hs : s.good = true) (h : HoldsWord s.rest tok r) :
    extractString s str = (advance s r, tok) := by
  obtain ⟨ws, hrest, hws, hne, htok, hr⟩ := h
  have hbody : tok ++ r ≠ [] := by simp [hne]
  have hhead : ∀ c ∈ (tok ++ r).head?, isspace c = false := by
    cases tok with
    | nil => exact absurd rfl hne
    | cons d t =>
      intro c hc
      simp only [List.cons_append, List.head?_cons, Option.mem_def, Option.some.injEq] at hc
      subst hc
      exact htok d (by simp)
  have hsen := sentry_of_holds s ws (tok ++ r) hs (by rw [hrest, List.append_assoc]) hws hbody
    hhead
  have htok2 : ∀ c ∈ tok, (fun c => !isspace c) c = true := fun c hc => by simp [htok c hc]
  have hr2 : ∀ c ∈ r.head?, (fun c => !isspace c) c = false := fun c hc => by simp [hr c hc]
  have h1 := takeWhile_append_of_all tok r htok2 hr2
  have h2 := dropWhile_append_of_all tok r htok2 hr2
  have hne2 : tok.isEmpty = false := by cases tok <;> simp_all
  simp only [extractString, hsen, if_true, h1, h2, hne2, advance]
  simp only [ifstream.good, Bool.and_eq_true, Bool.not_eq_true'] at hs
  simp [hs.2]

@[simp] theorem advance_rest (s : ifstream) (r : List Char) : (advance s r).rest = r := rfl

@[simp] theorem advance_advance (s : ifstream) (r1 r2 : List Char) :
    advance (advance s r1) r2 = advance s r2 := rfl

theorem readHeader_eq_of_holds (infile : ifstream) (image : image_t) (maxVal0 : Int)
    (magic : List Char) (w h m : Nat) (r : List Char)
    (hgood : infile.good = true) (hhdr : HoldsHeader infile.rest magic w h m r)
    (hw : w ≤ 65535) (hh : h ≤ 65535) (hm : m ≤ 2147483647) :
    readHeader infile image maxVal0 =
      (decide (magic = P3 ∧ m = 255 ∧ w ≤ 600 ∧ h ≤ 600), advance infile r,
        { image with width := w, height := h }) := by
  obtain ⟨r1, r2, r3, h0, h1, h2, h3⟩ := hhdr
  have e0 := extractString_of_holds infile [] magic r1 hgood h0
  have g1 := advance_good infile r1 hgood h1.ne_nil
  have e1 := extractUShort_of_holds (advance infile r1) image.width w r2 g1 h1 hw
  have g2 := advance_good infile r2 hgood h2.ne_nil
  have e2 := extractUShort_of_holds (advance infile r2) image.height h r3 g2 h2 hh
  have g3 := advance_good infile r3 hgood h3.ne_nil
  have e3 := extractInt_of_holds (advance infile r3) maxVal0 m r g3 h3 hm
  simp only [advance_advance] at e1 e2 e3
  simp only [readHeader, e0, e1, e2, e3]
  have hiff : (if (magic != P3 || ((m : Nat) : Int) != ((pixel_t.MAX_VAL : Nat) : Int) ||
      decide (w > image_t.MAX_DIMENSION) || decide (h > image_t.MAX_DIMENSION)) = true
      then false else true) = decide (magic = P3 ∧ m = 255 ∧ w ≤ 600 ∧ h ≤ 600) := by
    simp only [pixel_t.MAX_VAL, image_t.MAX_DIMENSION]
    by_cases a : magic = P3 <;> by_cases b : m = 255 <;> by_cases c : w ≤ 600 <;>
      by_cases d : h ≤ 600 <;> simp [a, b, c, d] <;> omega
  rw [hiff]

/-- C3: on a readable stream whose next four white-space-delimited tokens are a magic
word, a width and a height that fit `unsigned short` and a maxval that fits `int`,
`readHeader` returns true exactly when the magic word is `P3`, the maxval is 255 and both
dimensions are at most 600; whatever it returns, the image then holds the parsed width and
height and the stream stands right after the fourth token, with no failure flag set. -/
theorem readHeader_valid_iff (infile : ifstream) (image : image_t) (maxVal0 : Int)
    (magic : List Char) (w h m : Nat) (r : List Char)
    (hgood : infile.good = true) (hhdr : HoldsHeader infile.rest magic w h m r)
    (hw : w ≤ 65535) (hh : h ≤ 65535) (hm : m ≤ 2147483647) :
    ((readHeader infile image maxVal0).1 = true ↔
        magic = P3 ∧ m = 255 ∧ w ≤ image_t.MAX_DIMENSION ∧ h ≤ image_t.MAX_DIMENSION) ∧
      (readHeader infile image maxVal0).2.2.width = w ∧
      (readHeader infile image maxVal0).2.2.height = h ∧
      (readHeader infile image maxVal0).2.1 = advance infile r := by
  rw [readHeader_eq_of_holds infile image maxVal0 magic w h m r hgood hhdr hw hh hm]
  simp [image_t.MAX_DIMENSION]

/-- Witness for C3: the header `P3 4 5 255` in front of one pixel. -/
theorem readHeader_valid_iff_witness :
    ((readHeader (streamOf "P3\n4 5\n255\n1 2 3\n".toList) (blankImage 0 0) 0).1 = true ↔
        P3 = P3 ∧ 255 = 255 ∧ 4 ≤ image_t.MAX_DIMENSION ∧ 5 ≤ image_t.MAX_DIMENSION) ∧
      (readHeader (streamOf "P3\n4 5\n255\n1 2 3\n".toList) (blankImage 0 0) 0).2.2.width = 4 ∧
      (readHeader (streamOf "P3\n4 5\n255\n1 2 3\n".toList) (blankImage 0 0) 0).2.2.height = 5 ∧
      (readHeader (streamOf "P3\n4 5\n255\n1 2 3\n".toList) (blankImage 0 0) 0).2.1 =
        advance (streamOf "P3\n4 5\n255\n1 2 3\n".toList) "\n1 2 3\n".toList :=
  readHeader_valid_iff (streamOf "P3\n4 5\n255\n1 2 3\n".toList) (blankImage 0 0) 0
    P3 4 5 255 "\n1 2 3\n".toList (by decide)
    ⟨"\n4 5\n255\n1 2 3\n".toList, " 5\n255\n1 2 3\n".toList, "\n255\n1 2 3\n".toList,
      ⟨[], by decide, by decide, by decide, by decide, by decide⟩,
      ⟨['\n'], ['4'], by decide, by decide, by decide, by decide, by decide, by decide⟩,
      ⟨[' '], ['5'], by decide, by decide, by decide, by decide, by decide, by decide⟩,
      ⟨['\n'], ['2', '5', '5'], by decide, by decide, by decide, by decide, by decide,
        by decide⟩⟩
    (by decide) (by decide) (by decide)

theorem forLoop_succ {σ : Type} (n : Nat) (body : Nat → σ → σ) (init : σ) :
    forLoop (n + 1) body init = body n (forLoop n body init) := rfl

theorem validateFilesLoop_succ (fin : Nat → ifstream) (image : image_t) (g : Nat → Int)
    (n : Nat) :
    validateFilesLoop fin image g (n + 1) =
      validateFilesBody g n (validateFilesLoop fin image g n) := rfl

theorem validateFilesBody_fin_other (g : Nat → Int) (i j : Nat) (st : ValidateState)
    (h : j ≠ i) : (validateFilesBody g i st).fin j = st.fin j := by
  unfold validateFilesBody
  simp only
  split_ifs <;> simp [setAt, h]

theorem validateFilesLoop_fin_other (fin : Nat → ifstream) (image : image_t) (g : Nat → Int)
    (n j : Nat) (h : n ≤ j) : (validateFilesLoop fin image g n).fin j = fin j := by
  induction n with
  | zero => rfl
  | succ k ih =>
    rw [validateFilesLoop_succ, validateFilesBody_fin_other g k j _ (by omega)]
    exact ih (by omega)

theorem validateFilesBody_isValid (g : Nat → Int) (i : Nat) (st : ValidateState) :
    (validateFilesBody g i st).isValid = true ↔
      st.isValid = true ∧ (((st.fin i).clear).seekgBeg).fail = false ∧
      (readHeader (((st.fin i).clear).seekgBeg) st.tempImage (g i)).1 = true ∧
      (i ≠ 0 →
        (readHeader (((st.fin i).clear).seekgBeg) st.tempImage (g i)).2.2.width = st.image.width ∧
        (readHeader (((st.fin i).clear).seekgBeg) st.tempImage (g i)).2.2.height =
          st.image.height) := by
  unfold validateFilesBody
  simp only
  by_cases hf : (((st.fin i).clear).seekgBeg).fail = true
  · simp [hf]
  · simp only [hf, Bool.false_eq_true, if_false]
    by_cases hok : (readHeader (((st.fin i).clear).seekgBeg) st.tempImage (g i)).1 = true
    · by_cases hi : i = 0
      · subst hi
        simp [hok]
      · simp only [hok, Bool.not_true, Bool.false_eq_true, if_false, beq_iff_eq, hi]
        split_ifs with hd
        · simp only [Bool.or_eq_true, bne_iff_ne, ne_eq] at hd
          simp only [Bool.false_eq_true, false_iff, not_and]
          intro _ _ _ hh
          have := hh (fun h => hi h)
          rcases hd with hd | hd
          · exact hd this.1.symm
          · exact hd this.2.symm
        · simp only [Bool.or_eq_true, bne_iff_ne, ne_eq, not_or, not_not] at hd
          simp [hd.1, hd.2, hi]
    · simp [hok]

theorem validateFilesBody_image_of_ne (g : Nat → Int) (i : Nat) (st : ValidateState)
    (hi : i ≠ 0) : (validateFilesBody g i st).image = st.image := by
  unfold validateFilesBody
  simp only
  split_ifs <;> simp_all

theorem validateFilesBody_image_zero (g : Nat → Int) (st : ValidateState)
    (hf : (((st.fin 0).clear).seekgBeg).fail = false)
    (hok : (readHeader (((st.fin 0).clear).seekgBeg) st.tempImage (g 0)).1 = true) :
    (validateFilesBody g 0 st).image =
      { st.image with
        width := (readHeader (((st.fin 0).clear).seekgBeg) st.tempImage (g 0)).2.2.width,
        height := (readHeader (((st.fin 0).clear).seekgBeg) st.tempImage (g 0)).2.2.height } := by
  unfold validateFilesBody
  simp [hf, hok]

theorem validateFilesBody_data (g : Nat → Int) (i : Nat) (st : ValidateState) :
    (validateFilesBody g i st).image.data = st.image.data := by
  unfold validateFilesBody
  simp only
  split_ifs <;> rfl

theorem validateFilesBody_fin_self (g : Nat → Int) (i : Nat) (st : ValidateState)
    (hf : (((st.fin i).clear).seekgBeg).fail = false) :
    (validateFilesBody g i st).fin i =
      (readHeader (((st.fin i).clear).seekgBeg) st.tempImage (g i)).2.1 := by
  unfold validateFilesBody
  simp only [hf, Bool.false_eq_true, if_false]
  split_ifs <;> simp [setAt]

theorem validateFilesLoop_image_of_pos (fin : Nat → ifstream) (image : image_t)
    (g : Nat → Int) (n : Nat) :
    (validateFilesLoop fin image g (n + 1)).image = (validateFilesLoop fin image g 1).image := by
  induction n with
  | zero => rfl
  | succ k ih =>
    rw [validateFilesLoop_succ, validateFilesBody_image_of_ne g (k + 1) _ (by omega), ih]

theorem validateFilesLoop_isValid (fin : Nat → ifstream) (image : image_t) (g : Nat → Int)
    (n : Nat) :
    (validateFilesLoop fin image g n).isValid = true ↔
      ∀ i < n, (rewound fin i).fail = false ∧ (headerResult fin image g i).1 = true ∧
        (i ≠ 0 →
          (headerResult fin image g i).2.2.width = (validateFilesLoop fin image g i).image.width ∧
          (headerResult fin image g i).2.2.height =
            (validateFilesLoop fin image g i).image.height) := by
  induction n with
  | zero => simp [validateFilesLoop, forLoop, validateFilesInit]
  | succ k ih =>
    rw [validateFilesLoop_succ, validateFilesBody_isValid, ih,
      validateFilesLoop_fin_other fin image g k k (le_refl k)]
    constructor
    · rintro ⟨hall, hk⟩ i hi
      rcases Nat.lt_succ_iff_lt_or_eq.mp hi with h | h
      · exact hall i h
      · subst h; exact hk
    · intro hall
      exact ⟨fun i hi => hall i (by omega), hall k (by omega)⟩

theorem validateFilesLoop_image_one (fin : Nat → ifstream) (image : image_t) (g : Nat → Int)
    (hf : (rewound fin 0).fail = false) (hok : (headerResult fin image g 0).1 = true) :
    (validateFilesLoop fin image g 1).image.width = (headerResult fin image g 0).2.2.width ∧
    (validateFilesLoop fin image g 1).image.height = (headerResult fin image g 0).2.2.height := by
  have h := validateFilesBody_image_zero g (validateFilesLoop fin image g 0) hf hok
  rw [validateFilesLoop_succ, h]
  exact ⟨rfl, rfl⟩

theorem validateFiles_true_iff (fin : Nat → ifstream) (image : image_t) (g : Nat → Int) :
    (validateFiles fin image g).1 = true ↔
      ∀ i < 10, (rewound fin i).fail = false ∧ (headerResult fin image g i).1 = true ∧
        (headerResult fin image g i).2.2.width = (headerResult fin image g 0).2.2.width ∧
        (headerResult fin image g i).2.2.height = (headerResult fin image g 0).2.2.height := by
  show (validateFilesLoop fin image g 10).isValid = true ↔ _
  rw [validateFilesLoop_isValid]
  constructor
  · intro h i hi
    obtain ⟨h0f, h0v, -⟩ := h 0 (by omega)
    obtain ⟨hf, hv, hd⟩ := h i hi
    refine ⟨hf, hv, ?_⟩
    rcases Nat.eq_zero_or_pos i with hz | hp
    · subst hz; exact ⟨rfl, rfl⟩
    · obtain ⟨j, rfl⟩ := Nat.exists_eq_succ_of_ne_zero (Nat.pos_iff_ne_zero.mp hp)
      have h1 := validateFilesLoop_image_one fin image g h0f h0v
      have hd' := hd (by omega)
      rw [Nat.succ_eq_add_one, validateFilesLoop_image_of_pos, h1.1, h1.2] at hd'
      exact hd'
  · intro h i hi
    obtain ⟨h0f, h0v, -⟩ := h 0 (by omega)
    obtain ⟨hf, hv, hw, hh⟩ := h i hi
    refine ⟨hf, hv, fun hne => ?_⟩
    obtain ⟨j, rfl⟩ := Nat.exists_eq_succ_of_ne_zero hne
    have h1 := validateFilesLoop_image_one fin image g h0f h0v
    rw [Nat.succ_eq_add_one, validateFilesLoop_image_of_pos, h1.1, h1.2]
    exact ⟨hw, hh⟩

theorem readHeader_fst (infile : ifstream) (image : image_t) (g : Int) :
    (readHeader infile image g).1 =
      (if ((extractString infile []).2 != P3 ||
          (extractInt (extractUShort (extractUShort (extractString infile []).1 image.width).1
            image.height).1 g).2 != (pixel_t.MAX_VAL : Int) ||
          decide ((extractUShort (extractString infile []).1 image.width).2 >
            image_t.MAX_DIMENSION) ||
          decide ((extractUShort (extractUShort (extractString infile []).1 image.width).1
            image.height).2 > image_t.MAX_DIMENSION)) = true then false else true) := rfl

theorem extractUShort_overflow (s : ifstream) (v0 v : Nat) (r : List Char)
    (hs : s.good = true) (h : HoldsNat s.rest v r) (hv : 65535 < v) :
    (extractUShort s v0).2 = 65535 := by
  obtain ⟨ws, ds, hrest, hws, hne, hds, hval, hr⟩ := h
  have hbody : ds ++ r ≠ [] := by simp [hne]
  have hsen := sentry_of_holds s ws (ds ++ r) hs (by rw [hrest, List.append_assoc]) hws hbody
    (head_digits_append ds r hne hds)
  have hscan := numScan_digits ds r hne hds hr.not_digit
  have hne2 : ds.isEmpty = false := by cases ds <;> simp_all
  subst hval
  have hle : digitsVal ds > USHRT_MAX := by simp only [USHRT_MAX]; omega
  simp only [extractUShort, hsen, hscan, if_true, hne2, Bool.false_eq_true, if_false, hle]
  rfl

theorem extractInt_overflow (s : ifstream) (v0 : Int) (v : Nat) (r : List Char)
    (hs : s.good = true) (h : HoldsNat s.rest v r) (hv : 2147483647 < v) :
    (extractInt s v0).2 = 2147483647 := by
  obtain ⟨ws, ds, hrest, hws, hne, hds, hval, hr⟩ := h
  have hbody : ds ++ r ≠ [] := by simp [hne]
  have hsen := sentry_of_holds s ws (ds ++ r) hs (by rw [hrest, List.append_assoc]) hws hbody
    (head_digits_append ds r hne hds)
  have hscan := numScan_digits ds r hne hds hr.not_digit
  have hne2 : ds.isEmpty = false := by cases ds <;> simp_all
  subst hval
  have h1 : ¬ ((digitsVal ds : Nat) : Int) < INT_MIN := by
    simp only [INT_MIN]; omega
  have h2 : ((digitsVal ds : Nat) : Int) > INT_MAX := by
    simp only [INT_MAX]; omega
  simp only [extractInt, hsen, hscan, if_true, hne2, Bool.false_eq_true, if_false, h1, h2]
  rfl

theorem readHeader_false_of_declaresInvalid (infile : ifstream) (image : image_t) (g : Int)
    (hgood : infile.good = true) (hbad : DeclaresInvalid infile.rest) :
    (readHeader infile image g).1 = false := by
  obtain ⟨magic, r1, h0, hcases⟩ := hbad
  have e0 := extractString_of_holds infile [] magic r1 hgood h0
  rw [readHeader_fst, e0]
  simp only [pixel_t.MAX_VAL, image_t.MAX_DIMENSION]
  rcases hcases with hm | ⟨w, r2, h1, hcases⟩
  · simp [hm]
  have g1 := advance_good infile r1 hgood h1.ne_nil
  by_cases hw : w ≤ 65535
  swap
  · have := extractUShort_overflow (advance infile r1) image.width w r2 g1 h1 (by omega)
    simp [this]
  have e1 := extractUShort_of_holds (advance infile r1) image.width w r2 g1 h1 hw
  simp only [advance_advance] at e1
  rw [e1]
  rcases hcases with hw6 | ⟨h, r3, h2, hcases⟩
  · simp [hw6]
  have g2 := advance_good infile r2 hgood h2.ne_nil
  by_cases hh : h ≤ 65535
  swap
  · have := extractUShort_overflow (advance infile r2) image.height h r3 g2 h2 (by omega)
    simp [this]
  have e2 := extractUShort_of_holds (advance infile r2) image.height h r3 g2 h2 hh
  simp only [advance_advance] at e2
  rw [e2]
  rcases hcases with hh6 | ⟨m, r, h3, hm⟩
  · simp [hh6]
  have g3 := advance_good infile r3 hgood h3.ne_nil
  by_cases hmm : m ≤ 2147483647
  swap
  · have := extractInt_overflow (advance infile r3) g m r g3 h3 (by omega)
    simp [this]
  have e3 := extractInt_of_holds (advance infile r3) g m r g3 h3 hmm
  simp only [advance_advance] at e3
  rw [e3]
  have : ((m : Nat) : Int) ≠ 255 := by omega
  simp [this]

theorem rewound_of_not_fail (fin : Nat → ifstream) (i : Nat)
    (h : (rewound fin i).fail = false) :
    (rewound fin i).good = true ∧ (rewound fin i).rest = (fin i).content ∧
      (fin i).isOpen = true := by
  unfold rewound ifstream.seekgBeg ifstream.clear ifstream.fail at *
  simp only at h ⊢
  cases ho : (fin i).isOpen <;> simp_all [ifstream.good]

theorem rewound_of_open (fin : Nat → ifstream) (i : Nat) (h : (fin i).isOpen = true) :
    rewound fin i = { fin i with rest := (fin i).content, eofbit := false, failbit := false } := by
  unfold rewound ifstream.seekgBeg ifstream.clear
  simp [h]

theorem validateFiles_false_of_declaresInvalid (fin : Nat → ifstream) (image : image_t)
    (g : Nat → Int) (i : Nat) (hi : i < 10) (hbad : DeclaresInvalid (fin i).content) :
    (validateFiles fin image g).1 = false := by
  cases hv : (validateFiles fin image g).1
  · rfl
  · exfalso
    obtain ⟨hf, hok, -⟩ := (validateFiles_true_iff fin image g).mp hv i hi
    obtain ⟨hg, hrest, -⟩ := rewound_of_not_fail fin i hf
    have := readHeader_false_of_declaresInvalid (rewound fin i)
      (validateFilesLoop fin image g i).tempImage (g i) hg (by rw [hrest]; exact hbad)
    unfold headerResult at hok
    rw [this] at hok
    exact Bool.false_ne_true hok

/-- C2: `validateFiles` returns true exactly when, for each of the ten streams, the stream
is readable after `clear()` and the rewind, its call of `readHeader` returns true, and the
width and height that call leaves behind equal those of stream 0.  In particular it
returns false as soon as one stream declares a magic word other than `P3`, a width or a
height above 600, or a maxval other than 255. -/
theorem validateFiles_spec (fin : Nat → ifstream) (image : image_t) (g : Nat → Int) :
    ((validateFiles fin image g).1 = true ↔
      ∀ i < 10, (rewound fin i).fail = false ∧ (headerResult fin image g i).1 = true ∧
        (headerResult fin image g i).2.2.width = (headerResult fin image g 0).2.2.width ∧
        (headerResult fin image g i).2.2.height = (headerResult fin image g 0).2.2.height) ∧
    (∀ i < 10, DeclaresInvalid (fin i).content → (validateFiles fin image g).1 = false) :=
  ⟨validateFiles_true_iff fin image g,
    fun i hi hbad => validateFiles_false_of_declaresInvalid fin image g i hi hbad⟩

/-- Witness for C2: stream 3 declares maxval 100, the other nine are valid. -/
theorem validateFiles_spec_witness :
    (validateFiles
      (streamsOf (fun i => if i = 3 then "P3 4 4 100\n".toList else "P3 4 4 255\n".toList))
      (blankImage 0 0) (fun _ => 0)).1 = false :=
  (validateFiles_spec
    (streamsOf (fun i => if i = 3 then "P3 4 4 100\n".toList else "P3 4 4 255\n".toList))
    (blankImage 0 0) (fun _ => 0)).2 3 (by decide)
    ⟨P3, " 4 4 100\n".toList, ⟨[], by decide, by decide, by decide, by decide, by decide⟩,
      Or.inr ⟨4, " 4 100\n".toList,
        ⟨[' '], ['4'], by decide, by decide, by decide, by decide, by decide, by decide⟩,
        Or.inr ⟨4, " 100\n".toList,
          ⟨[' '], ['4'], by decide, by decide, by decide, by decide, by decide, by decide⟩,
          Or.inr ⟨100, "\n".toList,
            ⟨[' '], ['1', '0', '0'], by decide, by decide, by decide, by decide, by decide,
              by decide⟩, by decide⟩⟩⟩⟩

/-- C10: on the stream `P3 4 4`, whose maxval token is missing, `readHeader` never assigns
`maxVal`; it returns true when the indeterminate starting value is 255 and false when
it is 0, and in both cases leaves the stream failed at the end of the file. -/
theorem readHeader_missing_maxval :
    (readHeader (streamOf "P3 4 4".toList) (blankImage 0 0) 255).1 = true ∧
    (readHeader (streamOf "P3 4 4".toList) (blankImage 0 0) 0).1 = false ∧
    (readHeader (streamOf "P3 4 4".toList) (blankImage 0 0) 255).2.1.failbit = true := by
  decide

theorem readHeader_dims_of_valid (s : ifstream) (image : image_t) (g : Int)
    (magic : List Char) (w h m : Nat) (r : List Char)
    (hgood : s.good = true) (hhdr : HoldsHeader s.rest magic w h m r)
    (hv : (readHeader s image g).1 = true) :
    (readHeader s image g).2.2.width = w ∧ (readHeader s image g).2.2.height = h ∧
      (readHeader s image g).2.1 = advance s r ∧
      magic = P3 ∧ m = 255 ∧ w ≤ 600 ∧ h ≤ 600 := by
  obtain ⟨r1, r2, r3, h0, h1, h2, h3⟩ := hhdr
  have hnot : ¬ DeclaresInvalid s.rest := by
    intro hbad
    rw [readHeader_false_of_declaresInvalid s image g hgood hbad] at hv
    exact Bool.false_ne_true hv
  have hw : w ≤ 600 := by
    by_contra hc
    exact hnot ⟨magic, r1, h0, Or.inr ⟨w, r2, h1, Or.inl (by omega)⟩⟩
  have hh : h ≤ 600 := by
    by_contra hc
    exact hnot ⟨magic, r1, h0, Or.inr ⟨w, r2, h1, Or.inr ⟨h, r3, h2, Or.inl (by omega)⟩⟩⟩
  have hm : m = 255 := by
    by_contra hc
    exact hnot ⟨magic, r1, h0,
      Or.inr ⟨w, r2, h1, Or.inr ⟨h, r3, h2, Or.inr ⟨m, r, h3, hc⟩⟩⟩⟩
  have hmag : magic = P3 := by
    by_contra hc
    exact hnot ⟨magic, r1, h0, Or.inl hc⟩
  have e := readHeader_eq_of_holds s image g magic w h m r hgood ⟨r1, r2, r3, h0, h1, h2, h3⟩
    (by omega) (by omega) (by omega)
  rw [e]
  exact ⟨rfl, rfl, rfl, hmag, hm, hw, hh⟩

theorem headerResult_of_valid (fin : Nat → ifstream) (image : image_t) (g : Nat → Int)
    (i : Nat) (magic : List Char) (w h m : Nat) (r : List Char)
    (hhdr : HoldsHeader (fin i).content magic w h m r)
    (hf : (rewound fin i).fail = false) (hv : (headerResult fin image g i).1 = true) :
    (headerResult fin image g i).2.2.width = w ∧ (headerResult fin image g i).2.2.height = h ∧
      (headerResult fin image g i).2.1 = advance (rewound fin i) r ∧
      magic = P3 ∧ m = 255 ∧ w ≤ 600 ∧ h ≤ 600 := by
  obtain ⟨hg, hrest, -⟩ := rewound_of_not_fail fin i hf
  exact readHeader_dims_of_valid (rewound fin i) _ (g i) magic w h m r hg
    (by rw [hrest]; exact hhdr) hv

theorem sentry_frame (s : ifstream) :
    (sentry s).1.content = s.content ∧ (sentry s).1.isOpen = s.isOpen := by
  unfold sentry
  simp only
  split_ifs <;> exact ⟨rfl, rfl⟩

theorem extractString_frame (s : ifstream) (str : List Char) :
    (extractString s str).1.content = s.content ∧ (extractString s str).1.isOpen = s.isOpen := by
  have h := sentry_frame s
  unfold extractString
  rcases hs : sentry s with ⟨s1, ok⟩
  rw [hs] at h
  simp only
  split_ifs <;> exact h

theorem extractUShort_frame (s : ifstream) (v : Nat) :
    (extractUShort s v).1.content = s.content ∧ (extractUShort s v).1.isOpen = s.isOpen := by
  have h := sentry_frame s
  unfold extractUShort
  rcases hs : sentry s with ⟨s1, ok⟩
  rw [hs] at h
  simp only
  split_ifs <;> exact h

theorem extractInt_frame (s : ifstream) (v : Int) :
    (extractInt s v).1.content = s.content ∧ (extractInt s v).1.isOpen = s.isOpen := by
  have h := sentry_frame s
  unfold extractInt
  rcases hs : sentry s with ⟨s1, ok⟩
  rw [hs] at h
  simp only
  split_ifs <;> exact h

theorem readHeader_snd (infile : ifstream) (image : image_t) (g : Int) :
    (readHeader infile image g).2.1 =
      (extractInt (extractUShort (extractUShort (extractString infile []).1 image.width).1
        image.height).1 g).1 := rfl

theorem readHeader_frame (s : ifstream) (image : image_t) (g : Int) :
    (readHeader s image g).2.1.content = s.content ∧
      (readHeader s image g).2.1.isOpen = s.isOpen := by
  rw [readHeader_snd]
  have h0 := extractString_frame s []
  have h1 := extractUShort_frame (extractString s []).1 image.width
  have h2 := extractUShort_frame (extractUShort (extractString s []).1 image.width).1
    image.height
  have h3 := extractInt_frame (extractUShort (extractUShort (extractString s []).1
    image.width).1 image.height).1 g
  exact ⟨by rw [h3.1, h2.1, h1.1, h0.1], by rw [h3.2, h2.2, h1.2, h0.2]⟩

theorem openFile_fail (s : ifstream) (file : Option (List Char)) :
    (s.openFile file).fail = true ↔ file = none := by
  cases file <;> simp [ifstream.openFile, ifstream.fail]

theorem openInputFilesLoop_fin (fs : FileSystem) (fin : Nat → ifstream)
    (names : Nat → List Char) (e : Nat) (n j : Nat) :
    (forLoop n (openInputFilesBody fs names) (fin, e)).1 j =
      if j < n then (fin j).openFile (fs.read (names j)) else fin j := by
  induction n generalizing j with
  | zero => simp [forLoop]
  | succ k ih =>
    rw [forLoop_succ]
    simp only [openInputFilesBody, setAt]
    by_cases hjk : j = k
    · subst hjk
      simp [ih]
    · simp only [hjk, if_false, ih]
      by_cases hlt : j < k
      · simp [hlt, Nat.lt_succ_of_lt hlt]
      · have : ¬ j < k + 1 := by omega
        simp [hlt, this]

theorem openInputFilesLoop_exit (fs : FileSystem) (fin : Nat → ifstream)
    (names : Nat → List Char) (e : Nat) (n : Nat) :
    (forLoop n (openInputFilesBody fs names) (fin, e)).2 = EXIT_SUCCESS ↔
      e = EXIT_SUCCESS ∧ ∀ i < n, (fs.read (names i)).isSome = true := by
  induction n with
  | zero => simp [forLoop]
  | succ k ih =>
    rw [forLoop_succ]
    simp only [openInputFilesBody]
    by_cases hf : (((forLoop k (openInputFilesBody fs names) (fin, e)).1 k).openFile
        (fs.read (names k))).fail = true
    · have hnone := (openFile_fail _ _).mp hf
      simp only [hf, if_true]
      constructor
      · intro h; exact absurd h (by decide)
      · rintro ⟨-, h⟩
        have := h k (by omega)
        rw [hnone] at this
        exact absurd this (by decide)
    · have hsome : fs.read (names k) ≠ none := fun h => hf ((openFile_fail _ _).mpr h)
      simp only [hf, Bool.false_eq_true, if_false]
      rw [ih]
      constructor
      · rintro ⟨he, h⟩
        refine ⟨he, fun i hi => ?_⟩
        rcases Nat.lt_succ_iff_lt_or_eq.mp hi with h' | h'
        · exact h i h'
        · subst h'; exact Option.isSome_iff_ne_none.mpr hsome
      · rintro ⟨he, h⟩
        exact ⟨he, fun i hi => h i (by omega)⟩

theorem mainOpened_fin (name : List Char) (fs : FileSystem) (i : Nat) (hi : i < 10) :
    (mainOpened name fs).1 i =
      ifstream.closed.openFile (fs.read (populateInputFileNames name i)) := by
  unfold mainOpened openInputFiles
  rw [openInputFilesLoop_fin]
  simp [hi]

theorem mainOpened_exit (name : List Char) (fs : FileSystem) :
    (mainOpened name fs).2 = EXIT_SUCCESS ↔
      ∀ i < 10, (fs.read (populateInputFileNames name i)).isSome = true := by
  unfold mainOpened openInputFiles
  rw [openInputFilesLoop_exit]
  simp

theorem mainOpened_isOpen (name : List Char) (fs : FileSystem) (i : Nat) (hi : i < 10) :
    ((mainOpened name fs).1 i).isOpen = (fs.read (populateInputFileNames name i)).isSome := by
  rw [mainOpened_fin name fs i hi]
  cases fs.read (populateInputFileNames name i) <;> rfl

theorem mainRun_of_invalid (name : List Char) (fs : FileSystem) (u : Indeterminate)
    (hv : (mainValidate name fs u).1 = false) :
    (mainRun name fs u).exitState = EXIT_FAILURE ∧
      (mainRun name fs u).calls = [Call.closeInputFiles] ∧ (mainRun name fs u).output = none := by
  unfold mainRun
  generalize mainValidate name fs u = v at hv ⊢
  obtain ⟨b, f, im⟩ := v
  simp only at hv
  subst hv
  exact ⟨rfl, rfl, rfl⟩

theorem mainRun_of_valid (name : List Char) (fs : FileSystem) (u : Indeterminate)
    (hv : (mainValidate name fs u).1 = true) (ho : (mainOpened name fs).2 = EXIT_SUCCESS) :
    (mainRun name fs u).exitState =
        (if fs.writable (IMG_DIR ++ name ++ EXT) then EXIT_SUCCESS else EXIT_FAILURE) ∧
      (mainRun name fs u).calls =
        [Call.processImageFiles, Call.writeImage, Call.closeInputFiles] := by
  unfold mainRun
  generalize mainValidate name fs u = v at hv ⊢
  generalize (mainOpened name fs).2 = e at ho ⊢
  obtain ⟨b, f, im⟩ := v
  simp only at hv
  subst hv
  subst ho
  cases hw : fs.writable (IMG_DIR ++ name ++ EXT)
  · exact ⟨by simp only [writeImage, hw]; rfl, rfl⟩
  · exact ⟨by simp only [writeImage, hw]; rfl, rfl⟩

theorem mainRun_of_valid_unopened (name : List Char) (fs : FileSystem) (u : Indeterminate)
    (hv : (mainValidate name fs u).1 = true) (ho : (mainOpened name fs).2 ≠ EXIT_SUCCESS) :
    (mainRun name fs u).exitState = (mainOpened name fs).2 := by
  unfold mainRun
  generalize mainValidate name fs u = v at hv ⊢
  generalize (mainOpened name fs).2 = e at ho ⊢
  obtain ⟨b, f, im⟩ := v
  simp only at hv
  subst hv
  have he : (e == EXIT_SUCCESS) = false := by simpa using ho
  simp only [Bool.not_true, Bool.false_eq_true, if_false, he]

theorem main_of_argc (argv : List (List Char)) (fs : FileSystem) (u : Indeterminate)
    (hlen : argv.length ≠ 2) :
    (main argv fs u).exitState = EXIT_FAILURE ∧ (main argv fs u).calls = [] := by
  unfold main
  simp only [bne_iff_ne, ne_eq, hlen, not_false_eq_true, if_true, and_self]

theorem main_of_two (argv : List (List Char)) (fs : FileSystem) (u : Indeterminate)
    (hlen : argv.length = 2) : main argv fs u = mainRun (argv.getD 1 []) fs u := by
  unfold main
  simp only [bne_iff_ne, ne_eq, hlen, not_true_eq_false, if_false]

theorem mainHeadersLoop_frame (u : Indeterminate) (init : (Nat → ifstream) × image_t)
    (n j : Nat) :
    ((forLoop n (mainHeadersBody u) init).1 j).content = (init.1 j).content ∧
      ((forLoop n (mainHeadersBody u) init).1 j).isOpen = (init.1 j).isOpen := by
  induction n with
  | zero => exact ⟨rfl, rfl⟩
  | succ k ih =>
    rw [forLoop_succ]
    simp only [mainHeadersBody, setAt]
    by_cases hjk : j = k
    · subst hjk
      simp only [if_true]
      have h := readHeader_frame ((forLoop j (mainHeadersBody u) init).1 j)
        (forLoop j (mainHeadersBody u) init).2 (u.headerMaxVal j)
      exact ⟨by rw [h.1, ih.1], by rw [h.2, ih.2]⟩
    · simp only [hjk, if_false]
      exact ih

theorem mainHeaders_content (name : List Char) (fs : FileSystem) (u : Indeterminate)
    (i : Nat) (hi : i < 10) (cs : List Char)
    (h : fs.read (populateInputFileNames name i) = some cs) :
    ((mainHeaders name fs u).1 i).content = cs ∧ ((mainHeaders name fs u).1 i).isOpen = true := by
  unfold mainHeaders
  have hf := mainHeadersLoop_frame u
    ((mainOpened name fs).1, { width := 0, height := 0, data := u.data }) 10 i
  have ho := mainOpened_fin name fs i hi
  rw [h] at ho
  rw [hf.1, hf.2]
  simp only [ho]
  exact ⟨rfl, rfl⟩

theorem mainOpened_exit_cases (name : List Char) (fs : FileSystem) :
    (mainOpened name fs).2 = EXIT_SUCCESS ∨ (mainOpened name fs).2 = EXIT_FAILURE := by
  unfold mainOpened openInputFiles
  generalize (10 : Nat) = n
  induction n with
  | zero => exact Or.inl rfl
  | succ k ih =>
    rw [forLoop_succ]
    simp only [openInputFilesBody]
    split_ifs
    · exact Or.inr rfl
    · exact ih

/-- C7: `main` returns `EXIT_SUCCESS` exactly when `argc` is 2, every one of the ten input
streams is open after `openInputFiles`, the call of `validateFiles` returns true and the
output file opens for writing; in every other case it returns `EXIT_FAILURE`. -/
theorem main_exit_success_iff (argv : List (List Char)) (fs : FileSystem) (u : Indeterminate) :
    ((main argv fs u).exitState = EXIT_SUCCESS ↔
      argv.length = 2 ∧
      (∀ i < 10, ((mainOpened (argv.getD 1 []) fs).1 i).isOpen = true) ∧
      (mainValidate (argv.getD 1 []) fs u).1 = true ∧
      fs.writable (IMG_DIR ++ argv.getD 1 [] ++ EXT) = true) ∧
    ((main argv fs u).exitState ≠ EXIT_SUCCESS → (main argv fs u).exitState = EXIT_FAILURE) := by
  have hopen : (∀ i < 10, ((mainOpened (argv.getD 1 []) fs).1 i).isOpen = true) ↔
      (mainOpened (argv.getD 1 []) fs).2 = EXIT_SUCCESS := by
    rw [mainOpened_exit]
    constructor
    · intro h i hi
      rw [← mainOpened_isOpen _ fs i hi]; exact h i hi
    · intro h i hi
      rw [mainOpened_isOpen _ fs i hi]; exact h i hi
  rw [hopen]
  by_cases hlen : argv.length = 2
  swap
  · have h := main_of_argc argv fs u hlen
    rw [h.1]
    exact ⟨⟨fun h' => absurd h' (by decide), fun h' => absurd h'.1 hlen⟩, fun _ => rfl⟩
  rw [main_of_two argv fs u hlen]
  cases hv : (mainValidate (argv.getD 1 []) fs u).1
  · have h := mainRun_of_invalid _ fs u hv
    rw [h.1]
    exact ⟨⟨fun h' => absurd h' (by decide), fun h' => absurd h'.2.2.1 (by decide)⟩,
      fun _ => rfl⟩
  by_cases ho : (mainOpened (argv.getD 1 []) fs).2 = EXIT_SUCCESS
  · have h := mainRun_of_valid _ fs u hv ho
    rw [h.1]
    cases hw : fs.writable (IMG_DIR ++ argv.getD 1 [] ++ EXT)
    · exact ⟨⟨fun h' => absurd h' (by decide), fun h' => absurd h'.2.2.2 (by decide)⟩,
        fun _ => rfl⟩
    · exact ⟨⟨fun _ => ⟨hlen, ho, rfl, rfl⟩, fun _ => rfl⟩, fun h' => absurd rfl h'⟩
  · have h := mainRun_of_valid_unopened _ fs u hv ho
    rw [h]
    exact ⟨⟨fun h' => absurd h' ho, fun h' => absurd h'.2.1 ho⟩,
      fun _ => (mainOpened_exit_cases _ fs).resolve_left ho⟩

theorem readHeader_width (infile : ifstream) (image : image_t) (g : Int) :
    (readHeader infile image g).2.2.width =
      (extractUShort (extractString infile []).1 image.width).2 := rfl

theorem readHeader_height (infile : ifstream) (image : image_t) (g : Int) :
    (readHeader infile image g).2.2.height =
      (extractUShort (extractUShort (extractString infile []).1 image.width).1
        image.height).2 := rfl

theorem readHeader_dims_le (infile : ifstream) (image : image_t) (g : Int)
    (hv : (readHeader infile image g).1 = true) :
    (readHeader infile image g).2.2.width ≤ 600 ∧ (readHeader infile image g).2.2.height ≤ 600 := by
  rw [readHeader_width, readHeader_height]
  rw [readHeader_fst] at hv
  simp only [image_t.MAX_DIMENSION] at hv
  by_contra hc
  have hor : ¬ (extractUShort (extractString infile []).1 image.width).2 ≤ 600 ∨
      ¬ (extractUShort (extractUShort (extractString infile []).1 image.width).1
        image.height).2 ≤ 600 := by
    by_contra hn
    push_neg at hn
    exact hc hn
  rcases hor with h | h
  · have : (extractUShort (extractString infile []).1 image.width).2 > 600 := by omega
    simp [this] at hv
  · have : (extractUShort (extractUShort (extractString infile []).1 image.width).1
        image.height).2 > 600 := by omega
    simp [this] at hv

theorem readHeader_dims_of_holdsDims (s : ifstream) (image : image_t) (g : Int)
    (magic : List Char) (w h : Nat) (r : List Char)
    (hgood : s.good = true) (hd : HoldsDims s.rest magic w h r)
    (hv : (readHeader s image g).1 = true) :
    (readHeader s image g).2.2.width = w ∧ (readHeader s image g).2.2.height = h := by
  obtain ⟨r1, r2, h0, h1, h2⟩ := hd
  obtain ⟨hle1, hle2⟩ := readHeader_dims_le s image g hv
  rw [readHeader_width] at hle1 ⊢
  rw [readHeader_height] at hle2 ⊢
  have e0 := extractString_of_holds s [] magic r1 hgood h0
  rw [e0] at hle1 hle2 ⊢
  have g1 := advance_good s r1 hgood h1.ne_nil
  by_cases hw : w ≤ 65535
  swap
  · have := extractUShort_overflow (advance s r1) image.width w r2 g1 h1 (by omega)
    rw [this] at hle1
    exact absurd hle1 (by decide)
  have e1 := extractUShort_of_holds (advance s r1) image.width w r2 g1 h1 hw
  simp only [advance_advance] at e1
  rw [e1] at hle2 ⊢
  have g2 := advance_good s r2 hgood h2.ne_nil
  by_cases hh : h ≤ 65535
  swap
  · have := extractUShort_overflow (advance s r2) image.height h r g2 h2 (by omega)
    rw [this] at hle2
    exact absurd hle2 (by decide)
  have e2 := extractUShort_of_holds (advance s r2) image.height h r g2 h2 hh
  simp only [advance_advance] at e2
  rw [e2]
  exact ⟨rfl, rfl⟩

theorem validateFiles_false_of_dims_mismatch (fin : Nat → ifstream) (image : image_t)
    (g : Nat → Int) (magic : Nat → List Char) (w h : Nat → Nat) (r : Nat → List Char)
    (hhdr : ∀ i < 10, HoldsDims (fin i).content (magic i) (w i) (h i) (r i))
    (i j : Nat) (hi : i < 10) (hj : j < 10) (hne : w i ≠ w j ∨ h i ≠ h j) :
    (validateFiles fin image g).1 = false := by
  cases hv : (validateFiles fin image g).1
  · rfl
  · exfalso
    have hall := (validateFiles_true_iff fin image g).mp hv
    have key : ∀ k < 10, (headerResult fin image g 0).2.2.width = w k ∧
        (headerResult fin image g 0).2.2.height = h k := by
      intro k hk
      obtain ⟨hf, hok, hw, hh⟩ := hall k hk
      obtain ⟨hg, hrest, -⟩ := rewound_of_not_fail fin k hf
      obtain ⟨e1, e2⟩ := readHeader_dims_of_holdsDims (rewound fin k) _ (g k) _ _ _ _ hg
        (by rw [hrest]; exact hhdr k hk) hok
      exact ⟨by rw [← hw]; exact e1, by rw [← hh]; exact e2⟩
    have ki := key i hi
    have kj := key j hj
    rcases hne with hne | hne
    · exact hne (by rw [← ki.1, ← kj.1])
    · exact hne (by rw [← ki.2, ← kj.2])

theorem mainValidate_false_of_mismatch (name : List Char) (fs : FileSystem)
    (u : Indeterminate) (files magic : Nat → List Char) (w h : Nat → Nat)
    (r : Nat → List Char)
    (hopen : ∀ i < 10, fs.read (populateInputFileNames name i) = some (files i))
    (hhdr : ∀ i < 10, HoldsDims (files i) (magic i) (w i) (h i) (r i))
    (hne : ∃ i < 10, ∃ j < 10, w i ≠ w j ∨ h i ≠ h j) :
    (mainValidate name fs u).1 = false := by
  obtain ⟨i, hi, j, hj, hne⟩ := hne
  unfold mainValidate
  refine validateFiles_false_of_dims_mismatch _ _ _ magic w h r ?_ i j hi hj hne
  intro k hk
  rw [(mainHeaders_content name fs u k hk (files k) (hopen k hk)).1]
  exact hhdr k hk

theorem holdsDims_4x4 : HoldsDims "P3 4 4 255\n".toList P3 4 4 " 255\n".toList :=
  ⟨" 4 4 255\n".toList, " 4 255\n".toList,
    ⟨[], by decide, by decide, by decide, by decide, by decide⟩,
    ⟨[' '], ['4'], by decide, by decide, by decide, by decide, by decide, by decide⟩,
    ⟨[' '], ['4'], by decide, by decide, by decide, by decide, by decide, by decide⟩⟩

theorem holdsDims_4x5 : HoldsDims "P3 4 5 255\n".toList P3 4 5 " 255\n".toList :=
  ⟨" 4 5 255\n".toList, " 5 255\n".toList,
    ⟨[], by decide, by decide, by decide, by decide, by decide⟩,
    ⟨[' '], ['4'], by decide, by decide, by decide, by decide, by decide, by decide⟩,
    ⟨[' '], ['5'], by decide, by decide, by decide, by decide, by decide, by decide⟩⟩

/-- C4: in a run of `main` with `argc = 2`: when all ten exposures open and each starts
with a magic word, a width and a height, and two of them declare different widths or
different heights, `validateFiles` returns false; and whenever `validateFiles` returns
false, `main` calls neither `processImageFiles` nor `writeImage`, writes no file and
returns `EXIT_FAILURE`. -/
theorem main_mismatch_aborts (argv : List (List Char)) (fs : FileSystem) (u : Indeterminate)
    (hlen : argv.length = 2) :
    (∀ (files magic : Nat → List Char) (w h : Nat → Nat) (r : Nat → List Char),
      (∀ i < 10, fs.read (populateInputFileNames (argv.getD 1 []) i) = some (files i)) →
      (∀ i < 10, HoldsDims (files i) (magic i) (w i) (h i) (r i)) →
      (∃ i < 10, ∃ j < 10, w i ≠ w j ∨ h i ≠ h j) →
      (mainValidate (argv.getD 1 []) fs u).1 = false) ∧
    ((mainValidate (argv.getD 1 []) fs u).1 = false →
      Call.processImageFiles ∉ (main argv fs u).calls ∧
      Call.writeImage ∉ (main argv fs u).calls ∧
      (main argv fs u).output = none ∧
      (main argv fs u).exitState = EXIT_FAILURE) := by
  refine ⟨fun files magic w h r hopen hhdr hne =>
    mainValidate_false_of_mismatch _ fs u files magic w h r hopen hhdr hne, fun hv => ?_⟩
  rw [main_of_two argv fs u hlen]
  obtain ⟨h1, h2, h3⟩ := mainRun_of_invalid _ fs u hv
  rw [h2]
  exact ⟨by decide, by decide, h3, h1⟩

/-- Witness for C4: nine exposures that declare 4x4 and one that declares 4x5. -/
theorem main_mismatch_aborts_witness :
    (mainValidate ['x'] (fileSystemOf ['x'] mismatchFiles true) zeroIndeterminate).1 = false ∧
    Call.processImageFiles ∉
      (main [['a'], ['x']] (fileSystemOf ['x'] mismatchFiles true) zeroIndeterminate).calls ∧
    Call.writeImage ∉
      (main [['a'], ['x']] (fileSystemOf ['x'] mismatchFiles true) zeroIndeterminate).calls ∧
    (main [['a'], ['x']] (fileSystemOf ['x'] mismatchFiles true) zeroIndeterminate).output =
      none ∧
    (main [['a'], ['x']] (fileSystemOf ['x'] mismatchFiles true) zeroIndeterminate).exitState =
      EXIT_FAILURE :=
  have h := main_mismatch_aborts [['a'], ['x']] (fileSystemOf ['x'] mismatchFiles true)
    zeroIndeterminate rfl
  have hv := h.1 mismatchFiles (fun _ => P3) (fun _ => 4) (fun i => if i = 9 then 5 else 4)
    (fun _ => " 255\n".toList) (by decide!)
    (fun i _ => by
      by_cases h9 : i = 9
      · simp only [mismatchFiles, h9, if_true]
        exact holdsDims_4x5
      · simp only [mismatchFiles, h9, if_false]
        exact holdsDims_4x4)
    ⟨0, by decide, 9, by decide, Or.inr (by decide)⟩
  ⟨hv, h.2 hv⟩

theorem StreamHolds.of_good {s : ifstream} {ps : List pixel_t} {r : List Char}
    (hg : s.good = true) (h : HoldsPixels s.rest ps r) : StreamHolds s ps r := by
  simp only [ifstream.good, Bool.and_eq_true, Bool.not_eq_true'] at hg
  exact ⟨hg.2, fun he => by rw [hg.1] at he; exact absurd he (by decide), h⟩

theorem StreamHolds.good {s : ifstream} {p : pixel_t} {ps : List pixel_t} {r : List Char}
    (h : StreamHolds s (p :: ps) r) : s.good = true := by
  obtain ⟨hf, he, r1, r2, r3, h1, -⟩ := h
  have hne := h1.ne_nil
  cases hb : s.eofbit
  · simp [ifstream.good, hb, hf]
  · exact absurd (he hb) hne

theorem StreamHolds.advance {s : ifstream} (hf : s.failbit = false) {ps : List pixel_t}
    {r r3 : List Char} (h : HoldsPixels r3 ps r) : StreamHolds (advance s r3) ps r := by
  refine ⟨hf, fun he => ?_, h⟩
  simpa [Sharpener.advance] using he

theorem readPixel_of_holds (s : ifstream) (t p : pixel_t) (ps : List pixel_t) (r : List Char)
    (h : StreamHolds s (p :: ps) r) (hp : p.Within 65535) :
    ∃ s1, readPixel s t = (s1, p) ∧ StreamHolds s1 ps r ∧
      s1.content = s.content ∧ s1.isOpen = s.isOpen := by
  have hg := h.good
  obtain ⟨hf, -, r1, r2, r3, h1, h2, h3, hrest⟩ := h
  have e1 := extractUShort_of_holds s t.red p.red r1 hg h1 hp.1
  have g1 := advance_good s r1 hg h2.ne_nil
  have e2 := extractUShort_of_holds (Sharpener.advance s r1) t.green p.green r2 g1 h2 hp.2.1
  have g2 := advance_good s r2 hg h3.ne_nil
  have e3 := extractUShort_of_holds (Sharpener.advance s r2) t.blue p.blue r3 g2 h3 hp.2.2
  simp only [advance_advance] at e2 e3
  refine ⟨Sharpener.advance s r3, ?_, StreamHolds.advance hf hrest, rfl, rfl⟩
  simp only [readPixel, e1, e2, e3]

theorem calcPixelAverageLoop_succ (fin : Nat → ifstream) (temp0 : pixel_t) (n : Nat) :
    calcPixelAverageLoop fin temp0 (n + 1) =
      calcPixelAverageBody n (calcPixelAverageLoop fin temp0 n) := rfl

theorem calcPixelAverageLoop_inv (fin : Nat → ifstream) (temp0 : pixel_t)
    (p : Nat → pixel_t) (ps : Nat → List pixel_t) (r : Nat → List Char)
    (hh : ∀ i < 10, StreamHolds (fin i) (p i :: ps i) (r i))
    (hp : ∀ i < 10, (p i).Within 65535) (n : Nat) (hn : n ≤ 10) :
    (calcPixelAverageLoop fin temp0 n).totalRed = ∑ i ∈ Finset.range n, (p i).red ∧
    (calcPixelAverageLoop fin temp0 n).totalGreen = ∑ i ∈ Finset.range n, (p i).green ∧
    (calcPixelAverageLoop fin temp0 n).totalBlue = ∑ i ∈ Finset.range n, (p i).blue ∧
    (∀ i < n, StreamHolds ((calcPixelAverageLoop fin temp0 n).fin i) (ps i) (r i) ∧
      ((calcPixelAverageLoop fin temp0 n).fin i).content = (fin i).content ∧
      ((calcPixelAverageLoop fin temp0 n).fin i).isOpen = (fin i).isOpen) ∧
    (∀ i, n ≤ i → (calcPixelAverageLoop fin temp0 n).fin i = fin i) := by
  induction n with
  | zero =>
    refine ⟨rfl, rfl, rfl, fun i hi => absurd hi (Nat.not_lt_zero i), fun i _ => rfl⟩
  | succ k ih =>
    obtain ⟨hr, hg, hb, hdone, hrest⟩ := ih (by omega)
    have hk : k < 10 := by omega
    have hfk := hrest k (le_refl k)
    obtain ⟨s1, hread, hs1, hc1, ho1⟩ :=
      readPixel_of_holds (fin k) (calcPixelAverageLoop fin temp0 k).temp (p k) (ps k) (r k)
        (hh k hk) (hp k hk)
    rw [calcPixelAverageLoop_succ]
    simp only [calcPixelAverageBody, hfk, hread, Finset.sum_range_succ, hr, hg, hb, setAt]
    refine ⟨trivial, trivial, trivial, fun i hi => ?_, fun i hi => ?_⟩
    · by_cases hik : i = k
      · subst hik
        simp only [if_true]
        exact ⟨hs1, hc1, ho1⟩
      · simp only [hik, if_false]
        exact hdone i (by omega)
    · have hik : i ≠ k := by omega
      simp only [hik, if_false]
      exact hrest i (by omega)

theorem sum_div_ten_le (f : Nat → Nat) (b : Nat) (h : ∀ i < 10, f i ≤ b) :
    (∑ i ∈ Finset.range 10, f i) / 10 ≤ b := by
  have hs : ∑ i ∈ Finset.range 10, f i ≤ ∑ _i ∈ Finset.range 10, b :=
    Finset.sum_le_sum (fun i hi => h i (Finset.mem_range.mp hi))
  simp only [Finset.sum_const, Finset.card_range, smul_eq_mul] at hs
  omega

theorem toData_of_le (n : Nat) (h : n ≤ 65535) : toData n = n := by
  unfold toData
  omega

theorem calcPixelAverage_of_holds (fin : Nat → ifstream) (temp0 : pixel_t)
    (p : Nat → pixel_t) (ps : Nat → List pixel_t) (r : Nat → List Char)
    (hh : ∀ i < 10, StreamHolds (fin i) (p i :: ps i) (r i))
    (hp : ∀ i < 10, (p i).Within 65535) :
    (calcPixelAverage fin temp0).2 = averageOf p ∧
    (∀ i < 10, StreamHolds ((calcPixelAverage fin temp0).1 i) (ps i) (r i) ∧
      ((calcPixelAverage fin temp0).1 i).content = (fin i).content ∧
      ((calcPixelAverage fin temp0).1 i).isOpen = (fin i).isOpen) ∧
    (∀ i, 10 ≤ i → (calcPixelAverage fin temp0).1 i = fin i) := by
  obtain ⟨hr, hg, hb, hdone, hrest⟩ :=
    calcPixelAverageLoop_inv fin temp0 p ps r hh hp 10 (le_refl 10)
  have e1 : (calcPixelAverage fin temp0).1 = (calcPixelAverageLoop fin temp0 10).fin := by
    simp only [calcPixelAverage]
  rw [e1]
  refine ⟨?_, hdone, hrest⟩
  simp only [calcPixelAverage, hr, hg, hb, averageOf]
  rw [toData_of_le _ (sum_div_ten_le _ 65535 (fun i hi => (hp i hi).1)),
    toData_of_le _ (sum_div_ten_le _ 65535 (fun i hi => (hp i hi).2.1)),
    toData_of_le _ (sum_div_ten_le _ 65535 (fun i hi => (hp i hi).2.2))]

theorem forLoop_add {σ : Type} (a b : Nat) (g : Nat → σ → σ) (s : σ) :
    forLoop (a + b) g s = forLoop b (fun j => g (a + j)) (forLoop a g s) := by
  induction b with
  | zero => rfl
  | succ k ih =>
    rw [← Nat.add_assoc, forLoop_succ, forLoop_succ, ih]

theorem forLoop_congr {σ : Type} (n : Nat) (f g : Nat → σ → σ) (s : σ)
    (h : ∀ i < n, ∀ t, f i t = g i t) : forLoop n f s = forLoop n g s := by
  induction n with
  | zero => rfl
  | succ k ih =>
    rw [forLoop_succ, forLoop_succ, ih (fun i hi t => h i (by omega) t), h k (by omega)]

theorem div_mod_of_cell (W y x : Nat) (hx : x < W) :
    (y * W + x) / W = y ∧ (y * W + x) % W = x := by
  have hW : 0 < W := by omega
  constructor
  · rw [Nat.mul_comm, Nat.mul_add_div hW, Nat.div_eq_of_lt hx, Nat.add_zero]
  · rw [Nat.mul_comm, Nat.mul_add_mod, Nat.mod_eq_of_lt hx]

theorem forLoop_nested {σ : Type} (H W : Nat) (f : Nat → Nat → σ → σ) (s : σ) :
    forLoop H (fun y t => forLoop W (f y) t) s =
      forLoop (H * W) (fun k t => f (k / W) (k % W) t) s := by
  induction H with
  | zero => rw [Nat.zero_mul]; rfl
  | succ k ih =>
    rw [forLoop_succ, ih, Nat.succ_mul, forLoop_add]
    apply forLoop_congr
    intro j hj t
    rw [(div_mod_of_cell W k j hj).1, (div_mod_of_cell W k j hj).2]

theorem forLoop_induction {σ : Type} (P : Nat → σ → Prop) (n : Nat) (body : Nat → σ → σ)
    (s : σ) (h0 : P 0 s) (hstep : ∀ k < n, ∀ t, P k t → P (k + 1) (body k t)) :
    P n (forLoop n body s) := by
  induction n with
  | zero => exact h0
  | succ k ih =>
    rw [forLoop_succ]
    exact hstep k (by omega) _ (ih (fun j hj t ht => hstep j (by omega) t ht))

theorem processImageFiles_flat (fin : Nat → ifstream) (image : image_t)
    (temp0 : Nat → Nat → pixel_t) :
    processImageFiles fin image temp0 =
      forLoop (image.height * image.width)
        (fun k st => processCell temp0 (k / image.width) (k % image.width) st)
        { fin := fin, image := image } := by
  unfold processImageFiles
  rw [← forLoop_nested]
  rfl

theorem cell_ne_of_lt (W j k : Nat) (h : j < k) : ¬ (j / W = k / W ∧ j % W = k % W) := by
  rintro ⟨h1, h2⟩
  have hj := Nat.div_add_mod j W
  have hk := Nat.div_add_mod k W
  rw [h1, h2] at hj
  omega

theorem processCell_fin (temp0 : Nat → Nat → pixel_t) (y x : Nat) (st : ProcessState) :
    (processCell temp0 y x st).fin = (calcPixelAverage st.fin (temp0 y x)).1 := by
  unfold processCell
  simp only

theorem processCell_width (temp0 : Nat → Nat → pixel_t) (y x : Nat) (st : ProcessState) :
    (processCell temp0 y x st).image.width = st.image.width := by
  unfold processCell
  simp only

theorem processCell_height (temp0 : Nat → Nat → pixel_t) (y x : Nat) (st : ProcessState) :
    (processCell temp0 y x st).image.height = st.image.height := by
  unfold processCell
  simp only

theorem processCell_data (temp0 : Nat → Nat → pixel_t) (y x : Nat) (st : ProcessState) :
    (processCell temp0 y x st).image.data =
      setPixel st.image.data y x (calcPixelAverage st.fin (temp0 y x)).2 := by
  unfold processCell
  simp only

theorem processImageFiles_inv (fin : Nat → ifstream) (image : image_t)
    (temp0 : Nat → Nat → pixel_t) (px : Nat → List pixel_t) (r : Nat → List Char)
    (hlen : ∀ i < 10, (px i).length = image.height * image.width)
    (hh : ∀ i < 10, StreamHolds (fin i) (px i) (r i))
    (hp : ∀ i < 10, ∀ p ∈ px i, p.Within 65535) :
    (processImageFiles fin image temp0).image.width = image.width ∧
    (processImageFiles fin image temp0).image.height = image.height ∧
    (∀ i < 10, StreamHolds ((processImageFiles fin image temp0).fin i) [] (r i) ∧
      ((processImageFiles fin image temp0).fin i).content = (fin i).content ∧
      ((processImageFiles fin image temp0).fin i).isOpen = (fin i).isOpen) ∧
    (∀ k < image.height * image.width,
      (processImageFiles fin image temp0).image.data (k / image.width) (k % image.width) =
        averageOf (fun i => (px i).getD k zeroPixel)) := by
  rw [processImageFiles_flat]
  have key := forLoop_induction
    (fun k (st : ProcessState) =>
      st.image.width = image.width ∧ st.image.height = image.height ∧
      (∀ i < 10, StreamHolds (st.fin i) ((px i).drop k) (r i) ∧
        (st.fin i).content = (fin i).content ∧ (st.fin i).isOpen = (fin i).isOpen) ∧
      (∀ j < k, st.image.data (j / image.width) (j % image.width) =
        averageOf (fun i => (px i).getD j zeroPixel)))
    (image.height * image.width)
    (fun k st => processCell temp0 (k / image.width) (k % image.width) st)
    { fin := fin, image := image }
    ⟨rfl, rfl, fun i hi => ⟨by simpa using hh i hi, rfl, rfl⟩,
      fun j hj => absurd hj (Nat.not_lt_zero j)⟩
    (by
      intro k hk st ⟨hw, hht, hstreams, hdata⟩
      have hcalc := calcPixelAverage_of_holds st.fin (temp0 (k / image.width) (k % image.width))
        (fun i => (px i).getD k zeroPixel) (fun i => (px i).drop (k + 1)) r
        (fun i hi => by
          have hk' : k < (px i).length := by rw [hlen i hi]; exact hk
          have := (hstreams i hi).1
          rw [List.drop_eq_getElem_cons hk'] at this
          show StreamHolds (st.fin i) ((px i).getD k zeroPixel :: (px i).drop (k + 1)) (r i)
          rw [List.getD_eq_getElem _ _ hk']
          exact this)
        (fun i hi => by
          have hk' : k < (px i).length := by rw [hlen i hi]; exact hk
          show ((px i).getD k zeroPixel).Within 65535
          rw [List.getD_eq_getElem _ _ hk']
          exact hp i hi _ (List.getElem_mem _))
      obtain ⟨havg, hfin, -⟩ := hcalc
      simp only [processCell_fin, processCell_width, processCell_height, processCell_data]
      refine ⟨hw, hht, fun i hi => ?_, fun j hj => ?_⟩
      · obtain ⟨h1, h2, h3⟩ := hfin i hi
        exact ⟨h1, by rw [h2]; exact (hstreams i hi).2.1, by rw [h3]; exact (hstreams i hi).2.2⟩
      · rw [havg]
        simp only [setPixel]
        rcases Nat.lt_succ_iff_lt_or_eq.mp hj with hlt | heq
        · simp only [cell_ne_of_lt image.width j k hlt, if_false]
          exact hdata j hlt
        · subst heq
          simp)
  obtain ⟨h1, h2, h3, h4⟩ := key
  refine ⟨h1, h2, fun i hi => ?_, h4⟩
  have := h3 i hi
  rw [List.drop_of_length_le (by rw [hlen i hi])] at this
  exact this

theorem digitsVal_append_singleton (ds : List Char) (d : Char) :
    digitsVal (ds ++ [d]) = 10 * digitsVal ds + (d.toNat - 48) := by
  simp [digitsVal, List.foldl_append]

theorem digitChar_spec (k : Nat) (hk : k < 10) :
    (Nat.digitChar k).isDigit = true ∧ (Nat.digitChar k).toNat - 48 = k := by
  interval_cases k <;> exact ⟨by decide, by decide⟩

theorem toDigitsCore_spec (fuel n : Nat) (ds : List Char) (h : n < fuel) :
    ∃ L, Nat.toDigitsCore 10 fuel n ds = L ++ ds ∧ L ≠ [] ∧
      (∀ c ∈ L, c.isDigit = true) ∧ digitsVal L = n := by
  induction fuel generalizing n ds with
  | zero => exact absurd h (Nat.not_lt_zero n)
  | succ k ih =>
    have hd := digitChar_spec (n % 10) (Nat.mod_lt n (by decide))
    unfold Nat.toDigitsCore
    simp only
    by_cases h0 : n / 10 = 0
    · simp only [h0, if_true]
      refine ⟨[Nat.digitChar (n % 10)], rfl, by simp, ?_, ?_⟩
      · intro c hc
        simp only [List.mem_singleton] at hc
        rw [hc]; exact hd.1
      · simp only [digitsVal, List.foldl_cons, List.foldl_nil, Nat.mul_zero, Nat.zero_add]
        rw [hd.2]
        omega
    · simp only [h0, if_false]
      obtain ⟨L, hL, hne, hdig, hval⟩ := ih (n / 10) (Nat.digitChar (n % 10) :: ds) (by omega)
      refine ⟨L ++ [Nat.digitChar (n % 10)], ?_, by simp, ?_, ?_⟩
      · rw [hL]; simp
      · intro c hc
        rcases List.mem_append.mp hc with hc | hc
        · exact hdig c hc
        · simp only [List.mem_singleton] at hc
          rw [hc]; exact hd.1
      · rw [digitsVal_append_singleton, hval, hd.2]
        omega

theorem toDigits_spec (n : Nat) :
    Nat.toDigits 10 n ≠ [] ∧ (∀ c ∈ Nat.toDigits 10 n, c.isDigit = true) ∧
      digitsVal (Nat.toDigits 10 n) = n := by
  obtain ⟨L, hL, hne, hdig, hval⟩ := toDigitsCore_spec (n + 1) n [] (Nat.lt_succ_self n)
  unfold Nat.toDigits
  rw [hL, List.append_nil]
  exact ⟨hne, hdig, hval⟩

theorem holdsNat_toDigits (ws : List Char) (n : Nat) (r : List Char)
    (hws : ∀ c ∈ ws, isspace c = true) (hr : Delimited r) :
    HoldsNat (ws ++ Nat.toDigits 10 n ++ r) n r :=
  ⟨ws, Nat.toDigits 10 n, rfl, hws, (toDigits_spec n).1, (toDigits_spec n).2.1,
    (toDigits_spec n).2.2, hr⟩

theorem writePixel_eq (out : List Char) (p : pixel_t) :
    writePixel out p =
      out ++ (Nat.toDigits 10 p.red ++ ' ' :: (Nat.toDigits 10 p.green ++
        ' ' :: (Nat.toDigits 10 p.blue ++ ['\n']))) := by
  simp [writePixel, putNat]

theorem delimited_space (t : List Char) : Delimited (' ' :: t) := by
  intro c hc
  simp only [List.head?_cons, Option.mem_def, Option.some.injEq] at hc
  subst hc
  decide

theorem delimited_newline (t : List Char) : Delimited ('\n' :: t) := by
  intro c hc
  simp only [List.head?_cons, Option.mem_def, Option.some.injEq] at hc
  subst hc
  decide

theorem holdsPixels_pixelLines (ps : List pixel_t) (lead tail : List Char)
    (hlead : ∀ c ∈ lead, isspace c = true) (hps : ps ≠ []) :
    HoldsPixels (lead ++ pixelLines ps ++ tail) ps ('\n' :: tail) := by
  induction ps generalizing lead with
  | nil => exact absurd rfl hps
  | cons p ps ih =>
    have hsp : ∀ c ∈ [' '], isspace c = true := by decide
    have hnl : ∀ c ∈ ['\n'], isspace c = true := by decide
    refine ⟨' ' :: (Nat.toDigits 10 p.green ++ ' ' :: (Nat.toDigits 10 p.blue ++
        '\n' :: (pixelLines ps ++ tail))),
      ' ' :: (Nat.toDigits 10 p.blue ++ '\n' :: (pixelLines ps ++ tail)),
      '\n' :: (pixelLines ps ++ tail), ?_, ?_, ?_, ?_⟩
    · have h := holdsNat_toDigits lead p.red _ hlead (delimited_space
        (Nat.toDigits 10 p.green ++ ' ' :: (Nat.toDigits 10 p.blue ++
          '\n' :: (pixelLines ps ++ tail))))
      have e : lead ++ pixelLines (p :: ps) ++ tail =
          lead ++ Nat.toDigits 10 p.red ++ ' ' :: (Nat.toDigits 10 p.green ++
            ' ' :: (Nat.toDigits 10 p.blue ++ '\n' :: (pixelLines ps ++ tail))) := by
        simp [pixelLines, writePixel_eq]
      rw [e]; exact h
    · have h := holdsNat_toDigits [' '] p.green _ hsp (delimited_space
        (Nat.toDigits 10 p.blue ++ '\n' :: (pixelLines ps ++ tail)))
      simpa using h
    · have h := holdsNat_toDigits [' '] p.blue _ hsp (delimited_newline (pixelLines ps ++ tail))
      simpa using h
    · cases ps with
      | nil => simp [HoldsPixels, pixelLines]
      | cons q qs =>
        have h := ih ['\n'] hnl (by simp)
        simpa using h

/-- C1: when the image is `W x H` with `W, H ≤ 600` and each of the ten streams is good and
holds, from its get position on, `W * H` well-formed RGB triples with channels in
`[0, 255]`, then after `processImageFiles` the width and height are unchanged and every
cell `data[y][x]` with `y < H`, `x < W` holds, channel by channel, the sum over the ten
streams of triple number `y * W + x`, divided by ten with truncation. -/
theorem processImageFiles_average (fin : Nat → ifstream) (image : image_t)
    (temp0 : Nat → Nat → pixel_t) (px : Nat → List pixel_t) (r : Nat → List Char)
    (hW : image.width ≤ image_t.MAX_DIMENSION) (hH : image.height ≤ image_t.MAX_DIMENSION)
    (hgood : ∀ i < 10, (fin i).good = true)
    (hholds : ∀ i < 10, HoldsPixels (fin i).rest (px i) (r i))
    (hlen : ∀ i < 10, (px i).length = image.height * image.width)
    (hrange : ∀ i < 10, ∀ p ∈ px i, p.Within 255) :
    (processImageFiles fin image temp0).image.width = image.width ∧
    (processImageFiles fin image temp0).image.height = image.height ∧
    ∀ y < image.height, ∀ x < image.width,
      (processImageFiles fin image temp0).image.data y x =
        { red := (∑ i ∈ Finset.range 10, ((px i).getD (y * image.width + x) zeroPixel).red) / 10,
          green :=
            (∑ i ∈ Finset.range 10, ((px i).getD (y * image.width + x) zeroPixel).green) / 10,
          blue :=
            (∑ i ∈ Finset.range 10, ((px i).getD (y * image.width + x) zeroPixel).blue) / 10 } := by
  have _ := hW
  have _ := hH
  obtain ⟨h1, h2, -, h4⟩ := processImageFiles_inv fin image temp0 px r hlen
    (fun i hi => StreamHolds.of_good (hgood i hi) (hholds i hi))
    (fun i hi p hp => by
      obtain ⟨a, b, c⟩ := hrange i hi p hp
      exact ⟨by omega, by omega, by omega⟩)
  refine ⟨h1, h2, fun y hy x hx => ?_⟩
  have hk : y * image.width + x < image.height * image.width := by
    calc y * image.width + x < y * image.width + image.width := by omega
      _ = (y + 1) * image.width := by rw [Nat.succ_mul]
      _ ≤ image.height * image.width := Nat.mul_le_mul_right _ hy
  have h := h4 (y * image.width + x) hk
  rw [(div_mod_of_cell image.width y x hx).1, (div_mod_of_cell image.width y x hx).2] at h
  rw [h]
  rfl

/-- Witness for C1: ten 1x1 exposures with reds 10, 20, ..., 100 (mean 55), greens nine
times 0 and once 9 (mean 0, not 1) and blues all 7. -/
theorem processImageFiles_average_witness :
    (processImageFiles (streamsOf (fun i => pixelLines [demoPixel i])) (blankImage 1 1)
        (fun _ _ => zeroPixel)).image.width = 1 ∧
    (processImageFiles (streamsOf (fun i => pixelLines [demoPixel i])) (blankImage 1 1)
        (fun _ _ => zeroPixel)).image.height = 1 ∧
    (processImageFiles (streamsOf (fun i => pixelLines [demoPixel i])) (blankImage 1 1)
        (fun _ _ => zeroPixel)).image.data 0 0 = { red := 55, green := 0, blue := 7 } := by
  have h := processImageFiles_average (streamsOf (fun i => pixelLines [demoPixel i]))
    (blankImage 1 1) (fun _ _ => zeroPixel) (fun i => [demoPixel i]) (fun _ => ['\n'])
    (by decide) (by decide) (fun i _ => rfl)
    (fun i _ => by
      have := holdsPixels_pixelLines [demoPixel i] [] [] (by simp) (by simp)
      simpa [streamsOf, streamOf, ifstream.openFile] using this)
    (fun i _ => rfl)
    (fun i hi p hp => by
      simp only [List.mem_singleton] at hp
      subst hp
      simp only [pixel_t.Within, demoPixel]
      refine ⟨by omega, ?_, by omega⟩
      split_ifs <;> omega)
  refine ⟨h.1, h.2.1, ?_⟩
  rw [h.2.2 0 (by decide) 0 (by decide)]
  simp [Finset.sum_range_succ, demoPixel, blankImage]

theorem validateFilesLoop_fin_done (fin : Nat → ifstream) (image : image_t) (g : Nat → Int)
    (n i : Nat) (hi : i < n) (hf : (rewound fin i).fail = false) :
    (validateFilesLoop fin image g n).fin i = (headerResult fin image g i).2.1 := by
  induction n with
  | zero => exact absurd hi (Nat.not_lt_zero i)
  | succ k ih =>
    rw [validateFilesLoop_succ]
    by_cases hik : i = k
    · subst hik
      have hfin := validateFilesLoop_fin_other fin image g i i (le_refl i)
      have hf' : ((((validateFilesLoop fin image g i).fin i).clear).seekgBeg).fail = false := by
        rw [hfin]; exact hf
      rw [validateFilesBody_fin_self g i _ hf', hfin]
      rfl
    · rw [validateFilesBody_fin_other g k i _ hik]
      exact ih (by omega)

theorem validateFiles_of_valid (fin : Nat → ifstream) (image : image_t) (g : Nat → Int)
    (magic : Nat → List Char) (w h m : Nat → Nat) (r : Nat → List Char)
    (hhdr : ∀ i < 10, HoldsHeader (fin i).content (magic i) (w i) (h i) (m i) (r i))
    (hv : (validateFiles fin image g).1 = true) :
    (validateFiles fin image g).2.2.width = w 0 ∧
    (validateFiles fin image g).2.2.height = h 0 ∧
    (validateFiles fin image g).2.2.data = image.data ∧
    w 0 ≤ 600 ∧ h 0 ≤ 600 ∧
    ∀ i < 10, (validateFiles fin image g).2.1 i = advance (rewound fin i) (r i) ∧
      (rewound fin i).good = true ∧ (rewound fin i).rest = (fin i).content ∧
      w i = w 0 ∧ h i = h 0 ∧ magic i = P3 ∧ m i = 255 := by
  have hall := (validateFiles_true_iff fin image g).mp hv
  obtain ⟨hf0, hok0, -⟩ := hall 0 (by omega)
  obtain ⟨hw0, hh0, -, -, -, hw6, hh6⟩ :=
    headerResult_of_valid fin image g 0 _ _ _ _ _ (hhdr 0 (by omega)) hf0 hok0
  have himg := validateFilesLoop_image_one fin image g hf0 hok0
  have e2 : (validateFiles fin image g).2.2 = (validateFilesLoop fin image g 10).image := by
    simp only [validateFiles]
  have e1 : (validateFiles fin image g).2.1 = (validateFilesLoop fin image g 10).fin := by
    simp only [validateFiles]
  have hdata : ∀ n, (validateFilesLoop fin image g n).image.data = image.data := by
    intro n
    induction n with
    | zero => rfl
    | succ k ih => rw [validateFilesLoop_succ, validateFilesBody_data, ih]
  rw [e2, e1, validateFilesLoop_image_of_pos fin image g 9, himg.1, himg.2, hw0, hh0]
  refine ⟨rfl, rfl, ?_, hw6, hh6, fun i hi => ?_⟩
  · rw [← validateFilesLoop_image_of_pos fin image g 9]; exact hdata 10
  · obtain ⟨hf, hok, hw, hh⟩ := hall i hi
    obtain ⟨e1', e2', e3', hmag, hm, -, -⟩ :=
      headerResult_of_valid fin image g i _ _ _ _ _ (hhdr i hi) hf hok
    obtain ⟨hg, hrest, -⟩ := rewound_of_not_fail fin i hf
    rw [validateFilesLoop_fin_done fin image g 10 i hi hf, e3']
    exact ⟨rfl, hg, hrest, by rw [← e1', hw, hw0], by rw [← e2', hh, hh0], hmag, hm⟩

theorem writeHeader_eq (out : List Char) (image : image_t) :
    writeHeader out image =
      out ++ ('P' :: '3' :: '\n' :: (Nat.toDigits 10 image.width ++ ' ' ::
        (Nat.toDigits 10 image.height ++ '\n' :: (Nat.toDigits 10 255 ++ ['\n'])))) := by
  simp [writeHeader, putNat, pixel_t.MAX_VAL]

theorem holdsHeader_writeHeader (image : image_t) (tail : List Char) :
    HoldsHeader (writeHeader [] image ++ tail) P3 image.width image.height 255
      ('\n' :: tail) := by
  have hsp : ∀ c ∈ [' '], isspace c = true := by decide
  have hnl : ∀ c ∈ ['\n'], isspace c = true := by decide
  refine ⟨'\n' :: (Nat.toDigits 10 image.width ++ ' ' ::
      (Nat.toDigits 10 image.height ++ '\n' :: (Nat.toDigits 10 255 ++ '\n' :: tail))),
    ' ' :: (Nat.toDigits 10 image.height ++ '\n' :: (Nat.toDigits 10 255 ++ '\n' :: tail)),
    '\n' :: (Nat.toDigits 10 255 ++ '\n' :: tail), ?_, ?_, ?_, ?_⟩
  · refine ⟨[], ?_, by simp, by decide, by decide, delimited_newline _⟩
    simp [writeHeader_eq, P3]
  · have h := holdsNat_toDigits ['\n'] image.width _ hnl (delimited_space
      (Nat.toDigits 10 image.height ++ '\n' :: (Nat.toDigits 10 255 ++ '\n' :: tail)))
    simpa using h
  · have h := holdsNat_toDigits [' '] image.height _ hsp (delimited_newline
      (Nat.toDigits 10 255 ++ '\n' :: tail))
    simpa using h
  · have h := holdsNat_toDigits ['\n'] 255 _ hnl (delimited_newline tail)
    simpa using h

theorem averageOf_within (p : Nat → pixel_t) (b : Nat) (h : ∀ i < 10, (p i).Within b) :
    (averageOf p).Within b :=
  ⟨sum_div_ten_le _ b (fun i hi => (h i hi).1), sum_div_ten_le _ b (fun i hi => (h i hi).2.1),
    sum_div_ten_le _ b (fun i hi => (h i hi).2.2)⟩

/-- C9, counterexample: ten exposures `P3 1 1 255` whose pixel is `300 0 0` pass
`validateFiles`, and the red channel of the averaged pixel is 300. -/
theorem pixel_invariant_counterexample :
    (validateFiles (streamsOf (fun _ => "P3 1 1 255\n300 0 0\n".toList)) (blankImage 0 0)
      (fun _ => 0)).1 = true ∧
    ¬ ((processImageFiles
        (validateFiles (streamsOf (fun _ => "P3 1 1 255\n300 0 0\n".toList)) (blankImage 0 0)
          (fun _ => 0)).2.1
        (validateFiles (streamsOf (fun _ => "P3 1 1 255\n300 0 0\n".toList)) (blankImage 0 0)
          (fun _ => 0)).2.2
        (fun _ _ => zeroPixel)).image.data 0 0).red ≤ pixel_t.MAX_VAL := by
  decide!

/-- C9, amended: let ten exposures carry well-formed headers and pass `validateFiles`, and
let the pixel data after each header be `H * W` well-formed triples with channels in
`[0, 255]` (`W`, `H` the declared dimensions).  Then `readPixel` on a stream whose next
triple is in range yields a pixel in range, `calcPixelAverage` on ten such streams yields
a pixel in range, and after `processImageFiles` every pixel of the logical extent has all
channels at most `MAX_VAL = 255`. -/
theorem pixels_within_max (fin : Nat → ifstream) (image : image_t) (g : Nat → Int)
    (temp0 : Nat → Nat → pixel_t) (magic : Nat → List Char) (w h m : Nat → Nat)
    (r : Nat → List Char) (px : Nat → List pixel_t) (q : Nat → List Char)
    (hv : (validateFiles fin image g).1 = true)
    (hhdr : ∀ i < 10, HoldsHeader (fin i).content (magic i) (w i) (h i) (m i) (r i))
    (hpx : ∀ i < 10, HoldsPixels (r i) (px i) (q i))
    (hlen : ∀ i < 10, (px i).length = h 0 * w 0)
    (hrange : ∀ i < 10, ∀ p ∈ px i, p.Within 255) :
    (∀ (s : ifstream) (t p : pixel_t) (ps : List pixel_t) (z : List Char),
      StreamHolds s (p :: ps) z → p.Within 255 → (readPixel s t).2.Within pixel_t.MAX_VAL) ∧
    (∀ (f : Nat → ifstream) (t : pixel_t) (p : Nat → pixel_t) (ps : Nat → List pixel_t)
      (z : Nat → List Char), (∀ i < 10, StreamHolds (f i) (p i :: ps i) (z i)) →
      (∀ i < 10, (p i).Within 255) → (calcPixelAverage f t).2.Within pixel_t.MAX_VAL) ∧
    (∀ y < (validateFiles fin image g).2.2.height, ∀ x < (validateFiles fin image g).2.2.width,
      ((processImageFiles (validateFiles fin image g).2.1 (validateFiles fin image g).2.2
        temp0).image.data y x).Within pixel_t.MAX_VAL) := by
  have up : ∀ p : pixel_t, p.Within 255 → p.Within 65535 :=
    fun p hp => ⟨by have := hp.1; omega, by have := hp.2.1; omega, by have := hp.2.2; omega⟩
  refine ⟨fun s t p ps z hs hp => ?_, fun f t p ps z hs hp => ?_, ?_⟩
  · obtain ⟨s1, hread, -⟩ := readPixel_of_holds s t p ps z hs (up p hp)
    rw [hread]; exact hp
  · obtain ⟨havg, -⟩ := calcPixelAverage_of_holds f t p ps z hs (fun i hi => up _ (hp i hi))
    rw [havg]; exact averageOf_within p 255 hp
  · obtain ⟨hw, hh, -, -, -, hstreams⟩ := validateFiles_of_valid fin image g magic w h m r hhdr hv
    have hinv := processImageFiles_inv (validateFiles fin image g).2.1
      (validateFiles fin image g).2.2 temp0 px q
      (fun i hi => by rw [hw, hh]; exact hlen i hi)
      (fun i hi => by
        obtain ⟨e, hg, -⟩ := hstreams i hi
        rw [e]
        simp only [ifstream.good, Bool.and_eq_true, Bool.not_eq_true'] at hg
        exact StreamHolds.advance hg.2 (hpx i hi))
      (fun i hi p hp => up p (hrange i hi p hp))
    intro y hy x hx
    have hk : y * (validateFiles fin image g).2.2.width + x <
        (validateFiles fin image g).2.2.height * (validateFiles fin image g).2.2.width := by
      calc y * (validateFiles fin image g).2.2.width + x
          < y * (validateFiles fin image g).2.2.width + (validateFiles fin image g).2.2.width := by
            omega
        _ = (y + 1) * (validateFiles fin image g).2.2.width := by rw [Nat.succ_mul]
        _ ≤ _ := Nat.mul_le_mul_right _ hy
    have hcell := hinv.2.2.2 _ hk
    rw [(div_mod_of_cell _ y x hx).1, (div_mod_of_cell _ y x hx).2] at hcell
    rw [hcell]
    refine averageOf_within _ 255 (fun i hi => ?_)
    have hlt : y * (validateFiles fin image g).2.2.width + x < (px i).length := by
      rw [hlen i hi, ← hw, ← hh]; exact hk
    show ((px i).getD _ zeroPixel).Within 255
    rw [List.getD_eq_getElem _ _ hlt]
    exact hrange i hi _ (List.getElem_mem _)

/-- Witness for C9 as amended: ten well-formed 1x1 exposures with channels below 256. -/
theorem pixels_within_max_witness :
    ((processImageFiles
        (validateFiles (streamsOf (fun i => exposureOf (demoPixel i))) (blankImage 0 0)
          (fun _ => 0)).2.1
        (validateFiles (streamsOf (fun i => exposureOf (demoPixel i))) (blankImage 0 0)
          (fun _ => 0)).2.2
        (fun _ _ => zeroPixel)).image.data 0 0).Within pixel_t.MAX_VAL :=
  (pixels_within_max (streamsOf (fun i => exposureOf (demoPixel i))) (blankImage 0 0)
    (fun _ => 0) (fun _ _ => zeroPixel) (fun _ => P3) (fun _ => 1) (fun _ => 1) (fun _ => 255)
    (fun i => '\n' :: pixelLines [demoPixel i]) (fun i => [demoPixel i]) (fun _ => ['\n'])
    (by decide!)
    (fun i _ => holdsHeader_writeHeader (blankImage 1 1) (pixelLines [demoPixel i]))
    (fun i _ => by
      have := holdsPixels_pixelLines [demoPixel i] ['\n'] [] (by decide) (by simp)
      simpa using this)
    (fun i _ => rfl)
    (fun i hi p hp => by
      simp only [List.mem_singleton] at hp
      subst hp
      simp only [pixel_t.Within, demoPixel]
      refine ⟨by omega, ?_, by omega⟩
      split_ifs <;> omega)).2.2 0 (by decide!) 0 (by decide!)

theorem writePixel_lineOf (out : List Char) (p : pixel_t) :
    writePixel out p = out ++ lineOf p := by
  simp [writePixel, putNat, lineOf]

theorem pixelLines_eq_flatten (ps : List pixel_t) :
    pixelLines ps = (ps.map lineOf).flatten := by
  induction ps with
  | nil => rfl
  | cons p ps ih => simp [pixelLines, writePixel_lineOf, ih]

theorem writePixelsLoop_eq (f : Nat → pixel_t) (n : Nat) (out : List Char) :
    forLoop n (fun k o => writePixel o (f k)) out =
      out ++ (((List.range n).map f).map lineOf).flatten := by
  induction n with
  | zero => simp [forLoop]
  | succ k ih =>
    rw [forLoop_succ, ih, writePixel_lineOf, List.range_succ]
    simp [List.flatten_append]

theorem writePixels_eq (out : List Char) (image : image_t) :
    writePixels out image = out ++ (imageLines image).flatten := by
  unfold writePixels
  rw [forLoop_nested image.height image.width (fun y x o => writePixel o (image.data y x)) out]
  exact writePixelsLoop_eq (fun k => image.data (k / image.width) (k % image.width)) _ out

theorem rowMajor_length (image : image_t) :
    (rowMajor image).length = image.height * image.width := by
  simp [rowMajor]

theorem cell_lt (H W y x : Nat) (hy : y < H) (hx : x < W) : y * W + x < H * W := by
  calc y * W + x < y * W + W := by omega
    _ = (y + 1) * W := by rw [Nat.succ_mul]
    _ ≤ H * W := Nat.mul_le_mul_right _ hy

theorem rowMajor_getElem? (image : image_t) (y x : Nat) (hy : y < image.height)
    (hx : x < image.width) :
    (rowMajor image)[y * image.width + x]? = some (image.data y x) := by
  have hk := cell_lt image.height image.width y x hy hx
  simp only [rowMajor, List.getElem?_map, List.getElem?_range hk, Option.map_some']
  rw [(div_mod_of_cell image.width y x hx).1, (div_mod_of_cell image.width y x hx).2]

/-- C8: when the destination opens, `writeImage` leaves `exitState` alone and writes exactly
`P3`, newline, the width, a blank, the height, newline, `255`, newline, and then the pixel
lines of the image and nothing else; there are `height * width` pixel lines, and line
number `y * width + x` is `red green blue` of `data[y][x]` followed by a newline. -/
theorem writeImage_output (image : image_t) (exitState : Nat) :
    writeImage true image exitState =
      (exitState,
        some (['P', '3', '\n'] ++ Nat.toDigits 10 image.width ++ [' '] ++
          Nat.toDigits 10 image.height ++ ['\n'] ++ Nat.toDigits 10 255 ++ ['\n'] ++
          (imageLines image).flatten)) ∧
    (imageLines image).length = image.height * image.width ∧
    ∀ y < image.height, ∀ x < image.width,
      (imageLines image)[y * image.width + x]? =
        some (Nat.toDigits 10 (image.data y x).red ++ [' '] ++
          Nat.toDigits 10 (image.data y x).green ++ [' '] ++
          Nat.toDigits 10 (image.data y x).blue ++ ['\n']) := by
  refine ⟨?_, by simp [imageLines, rowMajor_length], fun y hy x hx => ?_⟩
  · simp [writeImage, writePixels_eq, writeHeader_eq]
  · simp only [imageLines, List.getElem?_map, rowMajor_getElem? image y x hy hx,
      Option.map_some', lineOf]

theorem readPixels_of_holds (ps : List pixel_t) (s : ifstream) (t0 : pixel_t) (r : List Char)
    (hs : StreamHolds s ps r) (hp : ∀ p ∈ ps, p.Within 65535) (k : Nat) (hk : k ≤ ps.length) :
    StreamHolds (readPixels s t0 k).1 (ps.drop k) r ∧
      ∀ j < k, (readPixels s t0 (j + 1)).2 = ps.getD j zeroPixel := by
  induction k with
  | zero => exact ⟨by simpa [readPixels] using hs, fun j hj => absurd hj (Nat.not_lt_zero j)⟩
  | succ n ih =>
    obtain ⟨hst, hprev⟩ := ih (by omega)
    have hn : n < ps.length := by omega
    rw [List.drop_eq_getElem_cons hn] at hst
    obtain ⟨s1, hread, hs1, -⟩ := readPixel_of_holds (readPixels s t0 n).1 (readPixels s t0 n).2
      ps[n] (ps.drop (n + 1)) r hst (hp _ (List.getElem_mem _))
    have hstep : readPixels s t0 (n + 1) = (s1, ps[n]) := by
      rw [← hread]; rfl
    refine ⟨by rw [hstep]; exact hs1, fun j hj => ?_⟩
    rcases Nat.lt_succ_iff_lt_or_eq.mp hj with hlt | heq
    · exact hprev j hlt
    · subst heq
      rw [hstep, List.getD_eq_getElem _ _ hn]

theorem roundtrip_aux (image : image_t) (base : image_t) (maxVal0 : Int) (t0 : pixel_t)
    (hW : image.width ≤ 600) (hH : image.height ≤ 600)
    (hdata : ∀ y < image.height, ∀ x < image.width, (image.data y x).Within 65535) :
    (readHeader (streamOf (writePixels (writeHeader [] image) image)) base maxVal0).1 = true ∧
    (readHeader (streamOf (writePixels (writeHeader [] image) image)) base maxVal0).2.2.width =
      image.width ∧
    (readHeader (streamOf (writePixels (writeHeader [] image) image)) base maxVal0).2.2.height =
      image.height ∧
    ∀ y < image.height, ∀ x < image.width,
      (readPixels
        (readHeader (streamOf (writePixels (writeHeader [] image) image)) base maxVal0).2.1
        t0 (y * image.width + x + 1)).2 = image.data y x := by
  have htext : writePixels (writeHeader [] image) image =
      writeHeader [] image ++ pixelLines (rowMajor image) := by
    rw [writePixels_eq, pixelLines_eq_flatten]; rfl
  have hhdr := holdsHeader_writeHeader image (pixelLines (rowMajor image))
  have hgood : (streamOf (writePixels (writeHeader [] image) image)).good = true := rfl
  have hrest : (streamOf (writePixels (writeHeader [] image) image)).rest =
      writeHeader [] image ++ pixelLines (rowMajor image) := htext
  have e := readHeader_eq_of_holds (streamOf (writePixels (writeHeader [] image) image)) base
    maxVal0 P3 image.width image.height 255 _ hgood (by rw [hrest]; exact hhdr)
    (by omega) (by omega) (by omega)
  rw [e]
  refine ⟨by simp [hW, hH], rfl, rfl, fun y hy x hx => ?_⟩
  have hk := cell_lt image.height image.width y x hy hx
  have hne : rowMajor image ≠ [] := by
    intro h
    have := rowMajor_length image
    rw [h] at this
    simp only [List.length_nil] at this
    omega
  have hpix := holdsPixels_pixelLines (rowMajor image) ['\n'] [] (by decide) hne
  have hstream : StreamHolds
      (advance (streamOf (writePixels (writeHeader [] image) image))
        ('\n' :: pixelLines (rowMajor image)))
      (rowMajor image) ['\n'] :=
    StreamHolds.advance rfl (by simpa using hpix)
  have hrange : ∀ p ∈ rowMajor image, p.Within 65535 := by
    intro p hp
    simp only [rowMajor, List.mem_map, List.mem_range] at hp
    obtain ⟨k, hk', rfl⟩ := hp
    have hW0 : 0 < image.width := by
      rcases Nat.eq_zero_or_pos image.width with h0 | h0
      · rw [h0, Nat.mul_zero] at hk'; exact absurd hk' (Nat.not_lt_zero k)
      · exact h0
    exact hdata _ ((Nat.div_lt_iff_lt_mul hW0).mpr hk') _ (Nat.mod_lt _ hW0)
  have hread := (readPixels_of_holds (rowMajor image) _ t0 ['\n'] hstream hrange
    (y * image.width + x + 1) (by rw [rowMajor_length]; omega)).2 (y * image.width + x)
    (Nat.lt_succ_self _)
  rw [hread]
  have hget := rowMajor_getElem? image y x hy hx
  rw [List.getD_eq_getElem?_getD, hget]
  rfl

/-- C6: for an image with width and height at most 600 and channel values that fit
`data_t`, the text written by `writeHeader` and then `writePixels` starts with the header
tokens `P3`, width, height, 255; `readHeader` on that text returns true and yields the same
width and height; and call number `y * width + x` of `readPixel` after it yields exactly
`data[y][x]`, for every row `y` and column `x` of the image. -/
theorem write_read_roundtrip (image : image_t) (base : image_t) (maxVal0 : Int) (t0 : pixel_t)
    (hW : image.width ≤ image_t.MAX_DIMENSION) (hH : image.height ≤ image_t.MAX_DIMENSION)
    (hdata : ∀ y < image.height, ∀ x < image.width, (image.data y x).Within USHRT_MAX) :
    (∃ r, HoldsHeader (writePixels (writeHeader [] image) image) P3 image.width image.height
      pixel_t.MAX_VAL r) ∧
    (readHeader (streamOf (writePixels (writeHeader [] image) image)) base maxVal0).1 = true ∧
    (readHeader (streamOf (writePixels (writeHeader [] image) image)) base maxVal0).2.2.width =
      image.width ∧
    (readHeader (streamOf (writePixels (writeHeader [] image) image)) base maxVal0).2.2.height =
      image.height ∧
    ∀ y < image.height, ∀ x < image.width,
      (readPixels
        (readHeader (streamOf (writePixels (writeHeader [] image) image)) base maxVal0).2.1
        t0 (y * image.width + x + 1)).2 = image.data y x := by
  refine ⟨⟨'\n' :: pixelLines (rowMajor image), ?_⟩,
    roundtrip_aux image base maxVal0 t0 hW hH hdata⟩
  have htext : writePixels (writeHeader [] image) image =
      writeHeader [] image ++ pixelLines (rowMajor image) := by
    rw [writePixels_eq, pixelLines_eq_flatten]; rfl
  rw [htext]
  exact holdsHeader_writeHeader image (pixelLines (rowMajor image))

/-- Witness for C6: a 2x1 image with the channel values 0, 255 and 65535 among its pixels. -/
theorem write_read_roundtrip_witness :
    (readHeader (streamOf (writePixels (writeHeader [] demoImage) demoImage)) (blankImage 0 0)
      0).1 = true ∧
    (readPixels
      (readHeader (streamOf (writePixels (writeHeader [] demoImage) demoImage)) (blankImage 0 0)
        0).2.1 zeroPixel 1).2 = { red := 0, green := 255, blue := 65535 } ∧
    (readPixels
      (readHeader (streamOf (writePixels (writeHeader [] demoImage) demoImage)) (blankImage 0 0)
        0).2.1 zeroPixel 2).2 = { red := 7, green := 8, blue := 9 } :=
  have h := write_read_roundtrip demoImage (blankImage 0 0) 0 zeroPixel (by decide) (by decide)
    (fun y _ x _ => by
      simp only [demoImage, pixel_t.Within, USHRT_MAX]
      split_ifs <;> exact ⟨by decide, by decide, by decide⟩)
  ⟨h.2.1, h.2.2.2.2 0 (by decide) 0 (by decide), h.2.2.2.2 0 (by decide) 1 (by decide)⟩

theorem sum_const_div_ten (v : Nat) : (∑ _i ∈ Finset.range 10, v) / 10 = v := by
  simp only [Finset.sum_const, Finset.card_range, smul_eq_mul]
  omega

theorem averageOf_const (p : pixel_t) : averageOf (fun _ => p) = p := by
  simp only [averageOf, sum_const_div_ten]

/-- C11: when the image is `W x H` with `W, H ≤ 600` and all ten streams are good and hold the
same `W * H` well-formed triples `ps` (channels any `data_t` value), then after
`processImageFiles` the width and height are unchanged and every cell `data[y][x]` of the
logical extent is exactly triple number `y * W + x` of `ps`; this rests on the mean of ten
equal pixels being that pixel. -/
theorem processImageFiles_identical (fin : Nat → ifstream) (image : image_t)
    (temp0 : Nat → Nat → pixel_t) (ps : List pixel_t) (r : Nat → List Char)
    (hW : image.width ≤ image_t.MAX_DIMENSION) (hH : image.height ≤ image_t.MAX_DIMENSION)
    (hgood : ∀ i < 10, (fin i).good = true)
    (hholds : ∀ i < 10, HoldsPixels (fin i).rest ps (r i))
    (hlen : ps.length = image.height * image.width)
    (hrange : ∀ p ∈ ps, p.Within USHRT_MAX) :
    (∀ p : pixel_t, averageOf (fun _ => p) = p) ∧
    (processImageFiles fin image temp0).image.width = image.width ∧
    (processImageFiles fin image temp0).image.height = image.height ∧
    ∀ y < image.height, ∀ x < image.width,
      (processImageFiles fin image temp0).image.data y x =
        ps.getD (y * image.width + x) zeroPixel := by
  have _ := hW
  have _ := hH
  obtain ⟨h1, h2, -, h4⟩ := processImageFiles_inv fin image temp0 (fun _ => ps) r
    (fun _ _ => hlen) (fun i hi => StreamHolds.of_good (hgood i hi) (hholds i hi))
    (fun _ _ p hp => hrange p hp)
  refine ⟨averageOf_const, h1, h2, fun y hy x hx => ?_⟩
  have h := h4 (y * image.width + x) (cell_lt image.height image.width y x hy hx)
  rw [(div_mod_of_cell image.width y x hx).1, (div_mod_of_cell image.width y x hx).2] at h
  rw [h]
  exact averageOf_const _

/-- Witness for C11: ten 2x2 exposures in which every pixel is `1 2 3`. -/
theorem processImageFiles_identical_witness :
    (processImageFiles (streamsOf (fun _ => pixelLines identicalPixels)) (blankImage 2 2)
        (fun _ _ => zeroPixel)).image.width = 2 ∧
    (processImageFiles (streamsOf (fun _ => pixelLines identicalPixels)) (blankImage 2 2)
        (fun _ _ => zeroPixel)).image.height = 2 ∧
    (processImageFiles (streamsOf (fun _ => pixelLines identicalPixels)) (blankImage 2 2)
        (fun _ _ => zeroPixel)).image.data 1 1 = { red := 1, green := 2, blue := 3 } := by
  have h := processImageFiles_identical (streamsOf (fun _ => pixelLines identicalPixels))
    (blankImage 2 2) (fun _ _ => zeroPixel) identicalPixels (fun _ => ['\n'])
    (by decide) (by decide) (fun _ _ => rfl)
    (fun _ _ => by
      have := holdsPixels_pixelLines identicalPixels [] [] (by simp) (by decide)
      simpa [streamsOf, streamOf, ifstream.openFile] using this)
    rfl
    (fun p hp => by
      simp only [identicalPixels, List.mem_replicate] at hp
      rw [hp.2]
      exact ⟨by decide, by decide, by decide⟩)
  refine ⟨h.2.1, h.2.2.1, ?_⟩
  rw [h.2.2.2 1 (by decide) 1 (by decide)]
  decide

theorem extractUShort_le (s : ifstream) (v : Nat) (hv : v ≤ 65535) :
    (extractUShort s v).2 ≤ 65535 := by
  unfold extractUShort
  rcases hs : sentry s with ⟨s1, ok⟩
  simp only
  split_ifs with h1 h2 h3 h4
  · exact Nat.zero_le _
  · simp only [USHRT_MAX]; exact le_refl _
  · simp only
    exact Nat.le_of_lt_succ (Nat.mod_lt _ (by decide))
  · simp only [USHRT_MAX] at h3
    simp only
    omega
  · exact hv

theorem readPixel_within (s : ifstream) (t : pixel_t) (ht : t.Within 65535) :
    (readPixel s t).2.Within 65535 := by
  unfold readPixel
  exact ⟨extractUShort_le _ _ ht.1, extractUShort_le _ _ ht.2.1, extractUShort_le _ _ ht.2.2⟩

theorem calcPixelAverageBody_temp (i : Nat) (st : AverageState) :
    (calcPixelAverageBody i st).temp = (readPixel (st.fin i) st.temp).2 := by
  unfold calcPixelAverageBody
  rcases h : readPixel (st.fin i) st.temp with ⟨f, t⟩
  simp only

theorem calcPixelAverageBody_totals (i : Nat) (st : AverageState) :
    (calcPixelAverageBody i st).totalRed = st.totalRed + (calcPixelAverageBody i st).temp.red ∧
    (calcPixelAverageBody i st).totalGreen =
      st.totalGreen + (calcPixelAverageBody i st).temp.green ∧
    (calcPixelAverageBody i st).totalBlue =
      st.totalBlue + (calcPixelAverageBody i st).temp.blue := by
  unfold calcPixelAverageBody
  rcases h : readPixel (st.fin i) st.temp with ⟨f, t⟩
  simp only
  exact ⟨trivial, trivial, trivial⟩

theorem calcPixelAverageLoop_temp_within (fin : Nat → ifstream) (temp0 : pixel_t)
    (h0 : temp0.Within 65535) (n : Nat) : (calcPixelAverageLoop fin temp0 n).temp.Within 65535 := by
  induction n with
  | zero => exact h0
  | succ k ih =>
    rw [calcPixelAverageLoop_succ, calcPixelAverageBody_temp]
    exact readPixel_within _ _ ih

theorem reading_within (fin : Nat → ifstream) (temp0 : pixel_t) (h0 : temp0.Within 65535)
    (i : Nat) : (reading fin temp0 i).Within 65535 :=
  calcPixelAverageLoop_temp_within fin temp0 h0 (i + 1)

theorem calcPixelAverageLoop_totals (fin : Nat → ifstream) (temp0 : pixel_t) (n : Nat) :
    (calcPixelAverageLoop fin temp0 n).totalRed =
      ∑ i ∈ Finset.range n, (reading fin temp0 i).red ∧
    (calcPixelAverageLoop fin temp0 n).totalGreen =
      ∑ i ∈ Finset.range n, (reading fin temp0 i).green ∧
    (calcPixelAverageLoop fin temp0 n).totalBlue =
      ∑ i ∈ Finset.range n, (reading fin temp0 i).blue := by
  induction n with
  | zero => simp [calcPixelAverageLoop, forLoop]
  | succ k ih =>
    obtain ⟨h1, h2, h3⟩ := calcPixelAverageBody_totals k (calcPixelAverageLoop fin temp0 k)
    rw [calcPixelAverageLoop_succ, Finset.sum_range_succ, Finset.sum_range_succ,
      Finset.sum_range_succ, h1, h2, h3, ih.1, ih.2.1, ih.2.2]
    exact ⟨rfl, rfl, rfl⟩

theorem calcPixelAverage_snd (fin : Nat → ifstream) (temp0 : pixel_t) :
    (calcPixelAverage fin temp0).2 =
      { red := toData ((∑ i ∈ Finset.range 10, (reading fin temp0 i).red) / 10),
        green := toData ((∑ i ∈ Finset.range 10, (reading fin temp0 i).green) / 10),
        blue := toData ((∑ i ∈ Finset.range 10, (reading fin temp0 i).blue) / 10) } := by
  obtain ⟨h1, h2, h3⟩ := calcPixelAverageLoop_totals fin temp0 10
  simp only [calcPixelAverage, h1, h2, h3]

theorem calcPixelAverage_eq_averageOf (fin : Nat → ifstream) (temp0 : pixel_t)
    (h0 : temp0.Within 65535) :
    (calcPixelAverage fin temp0).2 = averageOf (reading fin temp0) := by
  rw [calcPixelAverage_snd]
  have hw := reading_within fin temp0 h0
  rw [toData_of_le _ (sum_div_ten_le _ 65535 (fun i _ => (hw i).1)),
    toData_of_le _ (sum_div_ten_le _ 65535 (fun i _ => (hw i).2.1)),
    toData_of_le _ (sum_div_ten_le _ 65535 (fun i _ => (hw i).2.2))]
  rfl

theorem le_sum_div_ten (f : Nat → Nat) (b : Nat) (h : ∀ i < 10, b ≤ f i) :
    b ≤ (∑ i ∈ Finset.range 10, f i) / 10 := by
  have hs : ∑ _i ∈ Finset.range 10, b ≤ ∑ i ∈ Finset.range 10, f i :=
    Finset.sum_le_sum (fun i hi => h i (Finset.mem_range.mp hi))
  simp only [Finset.sum_const, Finset.card_range, smul_eq_mul] at hs
  omega

theorem averageOf_between (p : Nat → pixel_t) :
    ((Finset.range 10).inf' Finset.nonempty_range_succ (fun i => (p i).red) ≤ (averageOf p).red ∧
      (averageOf p).red ≤ (Finset.range 10).sup' Finset.nonempty_range_succ (fun i => (p i).red)) ∧
    ((Finset.range 10).inf' Finset.nonempty_range_succ (fun i => (p i).green) ≤
        (averageOf p).green ∧
      (averageOf p).green ≤
        (Finset.range 10).sup' Finset.nonempty_range_succ (fun i => (p i).green)) ∧
    ((Finset.range 10).inf' Finset.nonempty_range_succ (fun i => (p i).blue) ≤
        (averageOf p).blue ∧
      (averageOf p).blue ≤
        (Finset.range 10).sup' Finset.nonempty_range_succ (fun i => (p i).blue)) := by
  have lo : ∀ f : Nat → Nat, (Finset.range 10).inf' Finset.nonempty_range_succ f ≤
      (∑ i ∈ Finset.range 10, f i) / 10 := fun f =>
    le_sum_div_ten f _ (fun i hi => Finset.inf'_le f (Finset.mem_range.mpr hi))
  have hi : ∀ f : Nat → Nat, (∑ i ∈ Finset.range 10, f i) / 10 ≤
      (Finset.range 10).sup' Finset.nonempty_range_succ f := fun f =>
    sum_div_ten_le f _ (fun i hi => Finset.le_sup' f (Finset.mem_range.mpr hi))
  exact ⟨⟨lo _, hi _⟩, ⟨lo _, hi _⟩, ⟨lo _, hi _⟩⟩

/-- C12: in `calcPixelAverage` (with `temp` holding a `data_t` value at the start), when
each of the ten readings has all channels in `[0, 255]`, so has the computed pixel; and
always each computed channel lies between the minimum and the maximum of the ten readings
of that channel. -/
theorem calcPixelAverage_between (fin : Nat → ifstream) (temp0 : pixel_t)
    (h0 : temp0.Within USHRT_MAX) :
    ((∀ i < 10, (reading fin temp0 i).Within 255) →
      (calcPixelAverage fin temp0).2.Within 255) ∧
    ((Finset.range 10).inf' Finset.nonempty_range_succ (fun i => (reading fin temp0 i).red) ≤
        (calcPixelAverage fin temp0).2.red ∧
      (calcPixelAverage fin temp0).2.red ≤
        (Finset.range 10).sup' Finset.nonempty_range_succ
          (fun i => (reading fin temp0 i).red)) ∧
    ((Finset.range 10).inf' Finset.nonempty_range_succ (fun i => (reading fin temp0 i).green) ≤
        (calcPixelAverage fin temp0).2.green ∧
      (calcPixelAverage fin temp0).2.green ≤
        (Finset.range 10).sup' Finset.nonempty_range_succ
          (fun i => (reading fin temp0 i).green)) ∧
    ((Finset.range 10).inf' Finset.nonempty_range_succ (fun i => (reading fin temp0 i).blue) ≤
        (calcPixelAverage fin temp0).2.blue ∧
      (calcPixelAverage fin temp0).2.blue ≤
        (Finset.range 10).sup' Finset.nonempty_range_succ
          (fun i => (reading fin temp0 i).blue)) := by
  rw [calcPixelAverage_eq_averageOf fin temp0 h0]
  exact ⟨fun h => averageOf_within _ 255 h, averageOf_between _⟩

/-- Witness for C12: ten streams whose pixels have reds 10, 20, ..., 100. -/
theorem calcPixelAverage_between_witness :
    (calcPixelAverage (streamsOf (fun i => pixelLines [demoPixel i])) zeroPixel).2.Within 255 :=
  (calcPixelAverage_between (streamsOf (fun i => pixelLines [demoPixel i])) zeroPixel
    (by decide)).1 (by decide!)

theorem sum_range_le (f : Nat → Nat) (b n : Nat) (h : ∀ i, f i ≤ b) :
    ∑ i ∈ Finset.range n, f i ≤ n * b := by
  have hs : ∑ i ∈ Finset.range n, f i ≤ ∑ _i ∈ Finset.range n, b :=
    Finset.sum_le_sum (fun i _ => h i)
  simpa [Finset.sum_const, Finset.card_range, smul_eq_mul] using hs

theorem calcPixelAverageLoop_totals_le (fin : Nat → ifstream) (temp0 : pixel_t)
    (h0 : temp0.Within 65535) (n : Nat) (hn : n ≤ 10) :
    (calcPixelAverageLoop fin temp0 n).totalRed ≤ 655350 ∧
    (calcPixelAverageLoop fin temp0 n).totalGreen ≤ 655350 ∧
    (calcPixelAverageLoop fin temp0 n).totalBlue ≤ 655350 := by
  obtain ⟨h1, h2, h3⟩ := calcPixelAverageLoop_totals fin temp0 n
  have hw := reading_within fin temp0 h0
  have b1 := sum_range_le (fun i => (reading fin temp0 i).red) 65535 n (fun i => (hw i).1)
  have b2 := sum_range_le (fun i => (reading fin temp0 i).green) 65535 n (fun i => (hw i).2.1)
  have b3 := sum_range_le (fun i => (reading fin temp0 i).blue) 65535 n (fun i => (hw i).2.2)
  have hmul : n * 65535 ≤ 655350 := by omega
  rw [h1, h2, h3]
  exact ⟨le_trans b1 hmul, le_trans b2 hmul, le_trans b3 hmul⟩

/-- C14: in `calcPixelAverage`, with `temp` holding a `data_t` value at the start, every
reading is a 16-bit value, so after any number of iterations each `int` total is at most
655350, which is below `2^31`; each quotient `total / 10` is at most 65535; and the pixel
stored is exactly the mathematical `floor(sum / 10)` of the ten readings of each channel:
the narrowing cast `% 65536` changes nothing. -/
theorem calcPixelAverage_no_overflow (fin : Nat → ifstream) (temp0 : pixel_t)
    (h0 : temp0.Within USHRT_MAX) :
    (∀ i, (reading fin temp0 i).Within USHRT_MAX) ∧
    (∀ n ≤ 10, (calcPixelAverageLoop fin temp0 n).totalRed ≤ 655350 ∧
      (calcPixelAverageLoop fin temp0 n).totalGreen ≤ 655350 ∧
      (calcPixelAverageLoop fin temp0 n).totalBlue ≤ 655350) ∧
    (655350 : Nat) < 2 ^ 31 ∧
    ((calcPixelAverageLoop fin temp0 10).totalRed / 10 ≤ USHRT_MAX ∧
      (calcPixelAverageLoop fin temp0 10).totalGreen / 10 ≤ USHRT_MAX ∧
      (calcPixelAverageLoop fin temp0 10).totalBlue / 10 ≤ USHRT_MAX) ∧
    (calcPixelAverage fin temp0).2 =
      { red := (∑ i ∈ Finset.range 10, (reading fin temp0 i).red) / 10,
        green := (∑ i ∈ Finset.range 10, (reading fin temp0 i).green) / 10,
        blue := (∑ i ∈ Finset.range 10, (reading fin temp0 i).blue) / 10 } := by
  obtain ⟨b1, b2, b3⟩ := calcPixelAverageLoop_totals_le fin temp0 h0 10 (le_refl 10)
  refine ⟨reading_within fin temp0 h0,
    fun n hn => calcPixelAverageLoop_totals_le fin temp0 h0 n hn, by decide, ?_, ?_⟩
  · simp only [USHRT_MAX]
    exact ⟨by omega, by omega, by omega⟩
  · rw [calcPixelAverage_eq_averageOf fin temp0 h0]
    rfl

/-- Witness for C14: ten streams that each hold the pixel `65535 65535 65535`. -/
theorem calcPixelAverage_no_overflow_witness :
    (calcPixelAverageLoop
      (streamsOf (fun _ => pixelLines [{ red := 65535, green := 65535, blue := 65535 }]))
      zeroPixel 10).totalRed ≤ 655350 ∧
    (calcPixelAverage
      (streamsOf (fun _ => pixelLines [{ red := 65535, green := 65535, blue := 65535 }]))
      zeroPixel).2 = { red := 65535, green := 65535, blue := 65535 } := by
  have h := calcPixelAverage_no_overflow
    (streamsOf (fun _ => pixelLines [{ red := 65535, green := 65535, blue := 65535 }]))
    zeroPixel (by decide)
  refine ⟨(h.2.1 10 (le_refl 10)).1, ?_⟩
  decide!

theorem processImageFiles_frame (fin : Nat → ifstream) (image : image_t)
    (temp0 : Nat → Nat → pixel_t) :
    (processImageFiles fin image temp0).image.width = image.width ∧
    (processImageFiles fin image temp0).image.height = image.height ∧
    ∀ y x, ¬ (y < image.height ∧ x < image.width) →
      (processImageFiles fin image temp0).image.data y x = image.data y x := by
  rw [processImageFiles_flat]
  exact forLoop_induction
    (fun _ (st : ProcessState) =>
      st.image.width = image.width ∧ st.image.height = image.height ∧
      ∀ y x, ¬ (y < image.height ∧ x < image.width) → st.image.data y x = image.data y x)
    (image.height * image.width)
    (fun k st => processCell temp0 (k / image.width) (k % image.width) st)
    { fin := fin, image := image }
    ⟨rfl, rfl, fun _ _ _ => rfl⟩
    (by
      intro k hk st ⟨hw, hh, hdata⟩
      simp only [processCell_width, processCell_height, processCell_data]
      refine ⟨hw, hh, fun y x hout => ?_⟩
      have hW0 : 0 < image.width := by
        rcases Nat.eq_zero_or_pos image.width with h0 | h0
        · rw [h0, Nat.mul_zero] at hk; exact absurd hk (Nat.not_lt_zero k)
        · exact h0
      have hy : k / image.width < image.height := (Nat.div_lt_iff_lt_mul hW0).mpr hk
      have hx : k % image.width < image.width := Nat.mod_lt _ hW0
      have hne : ¬ (y = k / image.width ∧ x = k % image.width) := by
        rintro ⟨rfl, rfl⟩
        exact hout ⟨hy, hx⟩
      simp only [setPixel, hne, if_false]
      exact hdata y x hout)

theorem rowMajor_congr (a b : image_t) (hw : a.width = b.width) (hh : a.height = b.height)
    (hd : ∀ y < a.height, ∀ x < a.width, a.data y x = b.data y x) :
    rowMajor a = rowMajor b := by
  unfold rowMajor
  rw [← hw, ← hh]
  apply List.map_congr_left
  intro k hk
  have hk' := List.mem_range.mp hk
  have hW0 : 0 < a.width := by
    rcases Nat.eq_zero_or_pos a.width with h0 | h0
    · rw [h0, Nat.mul_zero] at hk'; exact absurd hk' (Nat.not_lt_zero k)
    · exact h0
  exact hd _ ((Nat.div_lt_iff_lt_mul hW0).mpr hk') _ (Nat.mod_lt _ hW0)

theorem writePixels_congr (out : List Char) (a b : image_t) (hw : a.width = b.width)
    (hh : a.height = b.height)
    (hd : ∀ y < a.height, ∀ x < a.width, a.data y x = b.data y x) :
    writePixels out a = writePixels out b := by
  rw [writePixels_eq, writePixels_eq, imageLines, imageLines, rowMajor_congr a b hw hh hd]

theorem validateFiles_dims_le (fin : Nat → ifstream) (image : image_t) (g : Nat → Int)
    (hv : (validateFiles fin image g).1 = true) :
    (validateFiles fin image g).2.2.width ≤ 600 ∧ (validateFiles fin image g).2.2.height ≤ 600 := by
  have hall := (validateFiles_true_iff fin image g).mp hv
  obtain ⟨hf0, hok0, -⟩ := hall 0 (by omega)
  have himg := validateFilesLoop_image_one fin image g hf0 hok0
  have hle := readHeader_dims_le (rewound fin 0) (validateFilesLoop fin image g 0).tempImage
    (g 0) hok0
  have e2 : (validateFiles fin image g).2.2 = (validateFilesLoop fin image g 10).image := by
    simp only [validateFiles]
  rw [e2, validateFilesLoop_image_of_pos fin image g 9, himg.1, himg.2]
  exact hle

theorem mainRun_process_called (name : List Char) (fs : FileSystem) (u : Indeterminate)
    (h : Call.processImageFiles ∈ (mainRun name fs u).calls ∨
      Call.writeImage ∈ (mainRun name fs u).calls) :
    (mainValidate name fs u).1 = true ∧
      (mainRun name fs u).image =
        (processImageFiles (mainValidate name fs u).2.1 (mainValidate name fs u).2.2
          u.temp).image := by
  unfold mainRun at h ⊢
  generalize mainValidate name fs u = v at h ⊢
  generalize (mainOpened name fs).2 = e at h ⊢
  obtain ⟨b, f, im⟩ := v
  simp only at h ⊢
  cases b
  · simp only [Bool.not_false, if_true] at h
    have hne : (EXIT_FAILURE == EXIT_SUCCESS) = false := by decide
    simp only [hne, Bool.false_eq_true, if_false] at h
    rcases h with h | h <;> simp at h
  · simp only [Bool.not_true, Bool.false_eq_true, if_false] at h ⊢
    by_cases he : (e == EXIT_SUCCESS) = true
    · simp only [he, if_true]
      trivial
    · simp only [he, if_false] at h
      rcases h with h | h <;> simp at h

/-- C15: `processImageFiles` changes no cell outside the logical extent (every cell
`data[y][x]` it writes has `y < height` and `x < width`); what `writePixels` writes depends
only on the cells inside the logical extent; and in every run of `main` that calls
`processImageFiles` or `writeImage`, the image they work on has the width and height that
`validateFiles` set, both at most 600, so every index stays inside the 600x600 array. -/
theorem accesses_within_extent (fin : Nat → ifstream) (image : image_t)
    (temp0 : Nat → Nat → pixel_t) (out : List Char) :
    ((processImageFiles fin image temp0).image.width = image.width ∧
      (processImageFiles fin image temp0).image.height = image.height ∧
      ∀ y x, ¬ (y < image.height ∧ x < image.width) →
        (processImageFiles fin image temp0).image.data y x = image.data y x) ∧
    (∀ other : image_t, other.width = image.width → other.height = image.height →
      (∀ y < image.height, ∀ x < image.width, other.data y x = image.data y x) →
      writePixels out other = writePixels out image) ∧
    (∀ (argv : List (List Char)) (fs : FileSystem) (u : Indeterminate),
      (Call.processImageFiles ∈ (main argv fs u).calls ∨
        Call.writeImage ∈ (main argv fs u).calls) →
      (mainValidate (argv.getD 1 []) fs u).2.2.width ≤ image_t.MAX_DIMENSION ∧
      (mainValidate (argv.getD 1 []) fs u).2.2.height ≤ image_t.MAX_DIMENSION ∧
      (main argv fs u).image.width = (mainValidate (argv.getD 1 []) fs u).2.2.width ∧
      (main argv fs u).image.height = (mainValidate (argv.getD 1 []) fs u).2.2.height) := by
  refine ⟨processImageFiles_frame fin image temp0, fun other hw hh hd => ?_,
    fun argv fs u hcall => ?_⟩
  · exact writePixels_congr out other image hw hh
      (fun y hy x hx => hd y (hh ▸ hy) x (hw ▸ hx))
  · by_cases hlen : argv.length = 2
    · rw [main_of_two argv fs u hlen] at hcall ⊢
      obtain ⟨hv, himg⟩ := mainRun_process_called _ fs u hcall
      have hle := validateFiles_dims_le _ _ _ hv
      have hfr := processImageFiles_frame (mainValidate (argv.getD 1 []) fs u).2.1
        (mainValidate (argv.getD 1 []) fs u).2.2 u.temp
      rw [himg]
      exact ⟨hle.1, hle.2, hfr.1, hfr.2.1⟩
    · rw [(main_of_argc argv fs u hlen).2] at hcall
      rcases hcall with h | h <;> simp at h

theorem validateFilesBody_image_cases (g : Nat → Int) (i : Nat) (st : ValidateState) :
    (validateFilesBody g i st).image = st.image ∨
      ((readHeader (((st.fin i).clear).seekgBeg) st.tempImage (g i)).1 = true ∧
        (validateFilesBody g i st).image =
          { st.image with
            width := (readHeader (((st.fin i).clear).seekgBeg) st.tempImage (g i)).2.2.width,
            height :=
              (readHeader (((st.fin i).clear).seekgBeg) st.tempImage (g i)).2.2.height }) := by
  unfold validateFilesBody
  simp only
  by_cases hf : (((st.fin i).clear).seekgBeg).fail = true
  · simp [hf]
  · by_cases hok : (readHeader (((st.fin i).clear).seekgBeg) st.tempImage (g i)).1 = true
    · by_cases hi : i = 0
      · subst hi
        simp [hf, hok]
      · simp only [hf, Bool.false_eq_true, if_false, hok, Bool.not_true, beq_iff_eq, hi]
        left
        split_ifs <;> rfl
    · simp [hf, hok]

theorem validateFiles_preserves_bound (fin : Nat → ifstream) (image : image_t)
    (g : Nat → Int) (hw : image.width ≤ 600) (hh : image.height ≤ 600) :
    (validateFiles fin image g).2.2.width ≤ 600 ∧ (validateFiles fin image g).2.2.height ≤ 600 := by
  have e2 : (validateFiles fin image g).2.2 = (validateFilesLoop fin image g 10).image := by
    simp only [validateFiles]
  rw [e2, validateFilesLoop_image_of_pos fin image g 9, validateFilesLoop_succ]
  rcases validateFilesBody_image_cases g 0 (validateFilesLoop fin image g 0) with h | ⟨hok, h⟩
  · rw [h]
    exact ⟨hw, hh⟩
  · rw [h]
    exact readHeader_dims_le _ _ _ hok

/-- C16, counterexample: on the header `P3 700 5 255`, `readHeader` returns false and
leaves width 700 in the image; a run of `main` on ten such exposures ends with width 700
in `image`. -/
theorem dimension_invariant_counterexample :
    (readHeader (streamOf "P3 700 5 255\n".toList) (blankImage 0 0) 0).1 = false ∧
    ¬ (readHeader (streamOf "P3 700 5 255\n".toList) (blankImage 0 0) 0).2.2.width ≤
      image_t.MAX_DIMENSION ∧
    ¬ (main [['a'], ['x']] (fileSystemOf ['x'] (fun _ => "P3 700 5 255\n".toList) true)
      zeroIndeterminate).image.width ≤ image_t.MAX_DIMENSION := by
  decide!

/-- C16, amended: an `image_t` has width and height 0 right after its declaration (the
local `tempImage` of `validateFiles`, the `image` of `main`); after a call of `readHeader`
that returns true its width and height are at most `MAX_DIMENSION`; after a call of
`validateFiles` that returns true the image's width and height are at most
`MAX_DIMENSION`; and `validateFiles`, whatever it returns, keeps an image whose width and
height were at most `MAX_DIMENSION` within that bound. -/
theorem dimension_invariant (infile : ifstream) (image : image_t) (g0 : Int)
    (fin : Nat → ifstream) (g : Nat → Int) :
    ((validateFilesInit fin image).tempImage = image_t.declared image.data ∧
      (∀ (name : List Char) (fs : FileSystem) (u : Indeterminate),
        mainHeaders name fs u =
          forLoop 10 (mainHeadersBody u) ((mainOpened name fs).1, image_t.declared u.data)) ∧
      ∀ data, (image_t.declared data).width ≤ image_t.MAX_DIMENSION ∧
        (image_t.declared data).height ≤ image_t.MAX_DIMENSION) ∧
    ((readHeader infile image g0).1 = true →
      (readHeader infile image g0).2.2.width ≤ image_t.MAX_DIMENSION ∧
      (readHeader infile image g0).2.2.height ≤ image_t.MAX_DIMENSION) ∧
    ((validateFiles fin image g).1 = true →
      (validateFiles fin image g).2.2.width ≤ image_t.MAX_DIMENSION ∧
      (validateFiles fin image g).2.2.height ≤ image_t.MAX_DIMENSION) ∧
    (image.width ≤ image_t.MAX_DIMENSION → image.height ≤ image_t.MAX_DIMENSION →
      (validateFiles fin image g).2.2.width ≤ image_t.MAX_DIMENSION ∧
      (validateFiles fin image g).2.2.height ≤ image_t.MAX_DIMENSION) := by
  refine ⟨⟨rfl, fun name fs u => ?_, fun data => ⟨Nat.zero_le _, Nat.zero_le _⟩⟩,
    fun hv => readHeader_dims_le infile image g0 hv,
    fun hv => validateFiles_dims_le fin image g hv,
    fun hw hh => validateFiles_preserves_bound fin image g hw hh⟩
  unfold mainHeaders image_t.declared
  rfl

/-- Witness for C16 as amended: the header `P3 4 5 255` is accepted and leaves 4 and 5. -/
theorem dimension_invariant_witness :
    (readHeader (streamOf "P3 4 5 255\n".toList) (blankImage 0 0) 0).2.2.width ≤
      image_t.MAX_DIMENSION ∧
    (readHeader (streamOf "P3 4 5 255\n".toList) (blankImage 0 0) 0).2.2.height ≤
      image_t.MAX_DIMENSION :=
  (dimension_invariant (streamOf "P3 4 5 255\n".toList) (blankImage 0 0) 0
    (streamsOf (fun _ => "P3 4 5 255\n".toList)) (fun _ => 0)).2.1 (by decide!)

theorem Consumed.trans {a b c : List Char} {n m : Nat} (h1 : Consumed a n b)
    (h2 : Consumed b m c) : Consumed a (n + m) c := by
  induction n generalizing a with
  | zero =>
    simp only [Consumed] at h1
    subst h1
    simpa using h2
  | succ k ih =>
    obtain ⟨v, r1, hv, hrest⟩ := h1
    have : k + 1 + m = (k + m) + 1 := by omega
    rw [this]
    exact ⟨v, r1, hv, ih hrest⟩

theorem readPixel_consumes (s : ifstream) (t p : pixel_t) (ps : List pixel_t) (r : List Char)
    (h : StreamHolds s (p :: ps) r) (hp : p.Within 65535) :
    (readPixel s t).2 = p ∧ StreamHolds (readPixel s t).1 ps r ∧
      Consumed s.rest 3 (readPixel s t).1.rest := by
  have hg := h.good
  obtain ⟨hf, -, r1, r2, r3, h1, h2, h3, hrest⟩ := h
  have e1 := extractUShort_of_holds s t.red p.red r1 hg h1 hp.1
  have g1 := advance_good s r1 hg h2.ne_nil
  have e2 := extractUShort_of_holds (advance s r1) t.green p.green r2 g1 h2 hp.2.1
  have g2 := advance_good s r2 hg h3.ne_nil
  have e3 := extractUShort_of_holds (advance s r2) t.blue p.blue r3 g2 h3 hp.2.2
  simp only [advance_advance] at e2 e3
  have hread : readPixel s t = (advance s r3, p) := by
    simp only [readPixel, e1, e2, e3]
  rw [hread]
  exact ⟨rfl, StreamHolds.advance hf hrest, ⟨p.red, r1, h1, p.green, r2, h2, p.blue, r3, h3, rfl⟩⟩

theorem calcPixelAverageBody_fin (i : Nat) (st : AverageState) :
    (calcPixelAverageBody i st).fin = setAt st.fin i (readPixel (st.fin i) st.temp).1 := by
  unfold calcPixelAverageBody
  rcases h : readPixel (st.fin i) st.temp with ⟨f, t⟩
  simp only

theorem calcPixelAverageLoop_consumed (fin : Nat → ifstream) (temp0 : pixel_t)
    (p : Nat → pixel_t) (ps : Nat → List pixel_t) (r : Nat → List Char)
    (hh : ∀ i < 10, StreamHolds (fin i) (p i :: ps i) (r i))
    (hp : ∀ i < 10, (p i).Within 65535) (n : Nat) (hn : n ≤ 10) :
    (∀ i < n, StreamHolds ((calcPixelAverageLoop fin temp0 n).fin i) (ps i) (r i) ∧
      Consumed (fin i).rest 3 ((calcPixelAverageLoop fin temp0 n).fin i).rest) ∧
    (∀ i, n ≤ i → (calcPixelAverageLoop fin temp0 n).fin i = fin i) := by
  induction n with
  | zero => exact ⟨fun i hi => absurd hi (Nat.not_lt_zero i), fun i _ => rfl⟩
  | succ k ih =>
    obtain ⟨hdone, hrest⟩ := ih (by omega)
    have hk : k < 10 := by omega
    have hfk := hrest k (le_refl k)
    obtain ⟨-, hs1, hc1⟩ := readPixel_consumes (fin k) (calcPixelAverageLoop fin temp0 k).temp
      (p k) (ps k) (r k) (hh k hk) (hp k hk)
    rw [calcPixelAverageLoop_succ, calcPixelAverageBody_fin, hfk]
    refine ⟨fun i hi => ?_, fun i hi => ?_⟩
    · by_cases hik : i = k
      · subst hik
        simp only [setAt, if_true]
        exact ⟨hs1, hc1⟩
      · simp only [setAt, hik, if_false]
        exact hdone i (by omega)
    · have hik : i ≠ k := by omega
      simp only [setAt, hik, if_false]
      exact hrest i (by omega)

theorem calcPixelAverage_consumed (fin : Nat → ifstream) (temp0 : pixel_t)
    (p : Nat → pixel_t) (ps : Nat → List pixel_t) (r : Nat → List Char)
    (hh : ∀ i < 10, StreamHolds (fin i) (p i :: ps i) (r i))
    (hp : ∀ i < 10, (p i).Within 65535) :
    ∀ i < 10, StreamHolds ((calcPixelAverage fin temp0).1 i) (ps i) (r i) ∧
      Consumed (fin i).rest 3 ((calcPixelAverage fin temp0).1 i).rest := by
  have e1 : (calcPixelAverage fin temp0).1 = (calcPixelAverageLoop fin temp0 10).fin := by
    simp only [calcPixelAverage]
  rw [e1]
  exact (calcPixelAverageLoop_consumed fin temp0 p ps r hh hp 10 (le_refl 10)).1

theorem processBefore_flat (fin : Nat → ifstream) (image : image_t)
    (temp0 : Nat → Nat → pixel_t) (y x : Nat) (hx : x ≤ image.width) :
    processBefore fin image temp0 y x =
      forLoop (y * image.width + x)
        (fun k st => processCell temp0 (k / image.width) (k % image.width) st)
        { fin := fin, image := image } := by
  unfold processBefore
  have hrows : forLoop y (processRow temp0 image.width) { fin := fin, image := image } =
      forLoop (y * image.width)
        (fun k st => processCell temp0 (k / image.width) (k % image.width) st)
        { fin := fin, image := image } := by
    rw [← forLoop_nested]
    rfl
  rw [hrows, forLoop_add]
  apply forLoop_congr
  intro j hj t
  have hjw : j < image.width := by omega
  rw [(div_mod_of_cell image.width y j hjw).1, (div_mod_of_cell image.width y j hjw).2]

theorem processFlat_consumed (fin : Nat → ifstream) (image : image_t)
    (temp0 : Nat → Nat → pixel_t) (px : Nat → List pixel_t) (r : Nat → List Char)
    (hlen : ∀ i < 10, (px i).length = image.height * image.width)
    (hh : ∀ i < 10, StreamHolds (fin i) (px i) (r i))
    (hp : ∀ i < 10, ∀ p ∈ px i, p.Within 65535) (k : Nat)
    (hk : k ≤ image.height * image.width) :
    ∀ i < 10,
      StreamHolds
        ((forLoop k (fun k st => processCell temp0 (k / image.width) (k % image.width) st)
          { fin := fin, image := image }).fin i) ((px i).drop k) (r i) ∧
      Consumed (fin i).rest (3 * k)
        ((forLoop k (fun k st => processCell temp0 (k / image.width) (k % image.width) st)
          { fin := fin, image := image }).fin i).rest := by
  induction k with
  | zero =>
    intro i hi
    exact ⟨by simpa [forLoop] using hh i hi, rfl⟩
  | succ n ih =>
    have ihn := ih (by omega)
    have hn : n < image.height * image.width := by omega
    rw [forLoop_succ]
    simp only [processCell_fin]
    have hcalc := calcPixelAverage_consumed
      (forLoop n (fun k st => processCell temp0 (k / image.width) (k % image.width) st)
        { fin := fin, image := image }).fin
      (temp0 (n / image.width) (n % image.width))
      (fun i => (px i).getD n zeroPixel) (fun i => (px i).drop (n + 1)) r
      (fun i hi => by
        have hk' : n < (px i).length := by rw [hlen i hi]; exact hn
        have := (ihn i hi).1
        rw [List.drop_eq_getElem_cons hk'] at this
        show StreamHolds _ ((px i).getD n zeroPixel :: (px i).drop (n + 1)) (r i)
        rw [List.getD_eq_getElem _ _ hk']
        exact this)
      (fun i hi => by
        have hk' : n < (px i).length := by rw [hlen i hi]; exact hn
        show ((px i).getD n zeroPixel).Within 65535
        rw [List.getD_eq_getElem _ _ hk']
        exact hp i hi _ (List.getElem_mem _))
    intro i hi
    obtain ⟨h1, h2⟩ := hcalc i hi
    refine ⟨h1, ?_⟩
    have := Consumed.trans (ihn i hi).2 h2
    have e : 3 * (n + 1) = 3 * n + 3 := by omega
    rw [e]
    exact this

/-- C17: on ten streams that each hold a well-formed triple next, the loop of
`calcPixelAverage` after `n` iterations has moved streams `0 .. n - 1` past exactly three
numerals each and has not touched streams `n .. 9`, so one call consumes exactly three
tokens of every stream, stream 0 first and stream 9 last.  On ten good streams that each
hold `H * W` well-formed triples, `processImageFiles` consumes exactly `3 * (H * W)` tokens
of every stream, and right before cell `(y, x)` is computed every stream has consumed
exactly `3 * (y * W + x)` tokens. -/
theorem lockstep_consumption (fin : Nat → ifstream) (image : image_t)
    (temp0 : Nat → Nat → pixel_t) (px : Nat → List pixel_t) (r : Nat → List Char)
    (hgood : ∀ i < 10, (fin i).good = true)
    (hholds : ∀ i < 10, HoldsPixels (fin i).rest (px i) (r i))
    (hlen : ∀ i < 10, (px i).length = image.height * image.width)
    (hrange : ∀ i < 10, ∀ p ∈ px i, p.Within USHRT_MAX) :
    (∀ (f : Nat → ifstream) (t : pixel_t) (p : Nat → pixel_t) (ps : Nat → List pixel_t)
      (z : Nat → List Char), (∀ i < 10, StreamHolds (f i) (p i :: ps i) (z i)) →
      (∀ i < 10, (p i).Within USHRT_MAX) →
      (∀ n ≤ 10,
        (∀ i < n, Consumed (f i).rest 3 ((calcPixelAverageLoop f t n).fin i).rest) ∧
        (∀ i, n ≤ i → (calcPixelAverageLoop f t n).fin i = f i)) ∧
      ∀ i < 10, Consumed (f i).rest 3 ((calcPixelAverage f t).1 i).rest) ∧
    (∀ i < 10, Consumed (fin i).rest (3 * (image.height * image.width))
      ((processImageFiles fin image temp0).fin i).rest) ∧
    (∀ y < image.height, ∀ x < image.width, ∀ i < 10,
      Consumed (fin i).rest (3 * (y * image.width + x))
        ((processBefore fin image temp0 y x).fin i).rest) := by
  have hsh : ∀ i < 10, StreamHolds (fin i) (px i) (r i) :=
    fun i hi => StreamHolds.of_good (hgood i hi) (hholds i hi)
  refine ⟨fun f t p ps z hs hp => ⟨fun n hn => ?_, fun i hi => ?_⟩, fun i hi => ?_,
    fun y hy x hx i hi => ?_⟩
  · obtain ⟨h1, h2⟩ := calcPixelAverageLoop_consumed f t p ps z hs hp n hn
    exact ⟨fun i hi => (h1 i hi).2, h2⟩
  · exact (calcPixelAverage_consumed f t p ps z hs hp i hi).2
  · rw [processImageFiles_flat]
    exact (processFlat_consumed fin image temp0 px r hlen hsh hrange _ (le_refl _) i hi).2
  · rw [processBefore_flat fin image temp0 y x (Nat.le_of_lt hx)]
    exact (processFlat_consumed fin image temp0 px r hlen hsh hrange _
      (Nat.le_of_lt (cell_lt image.height image.width y x hy hx)) i hi).2

/-- Witness for C17: ten 2x2 exposures of four pixels each; twelve tokens are consumed in
all, nine of them before cell `(1, 1)`. -/
theorem lockstep_consumption_witness :
    Consumed (pixelLines identicalPixels) 12
      ((processImageFiles (streamsOf (fun _ => pixelLines identicalPixels)) (blankImage 2 2)
        (fun _ _ => zeroPixel)).fin 0).rest ∧
    Consumed (pixelLines identicalPixels) 9
      ((processBefore (streamsOf (fun _ => pixelLines identicalPixels)) (blankImage 2 2)
        (fun _ _ => zeroPixel) 1 1).fin 0).rest := by
  have h := lockstep_consumption (streamsOf (fun _ => pixelLines identicalPixels))
    (blankImage 2 2) (fun _ _ => zeroPixel) (fun _ => identicalPixels) (fun _ => ['\n'])
    (fun _ _ => rfl)
    (fun _ _ => by
      have := holdsPixels_pixelLines identicalPixels [] [] (by simp) (by decide)
      simpa [streamsOf, streamOf, ifstream.openFile] using this)
    (fun _ _ => rfl)
    (fun _ _ p hp => by
      simp only [identicalPixels, List.mem_replicate] at hp
      rw [hp.2]
      exact ⟨by decide, by decide, by decide⟩)
  exact ⟨h.2.1 0 (by decide), h.2.2 1 (by decide) 1 (by decide) 0 (by decide)⟩

theorem rewound_ok_of_open (fin : Nat → ifstream) (i : Nat) (ho : (fin i).isOpen = true) :
    (rewound fin i).fail = false := by
  rw [rewound_of_open fin i ho]
  rfl

theorem closeInputFilesLoop (fin : Nat → ifstream) (n i : Nat) :
    forLoop n (fun i f => setAt f i (f i).close) fin i =
      if i < n then (fin i).close else fin i := by
  induction n generalizing i with
  | zero => simp [forLoop]
  | succ k ih =>
    rw [forLoop_succ]
    simp only [setAt]
    by_cases hik : i = k
    · subst hik
      simp [ih]
    · simp only [hik, if_false, ih]
      by_cases hlt : i < k
      · simp [hlt, Nat.lt_succ_of_lt hlt]
      · have : ¬ i < k + 1 := by omega
        simp [hlt, this]

theorem closeInputFiles_apply (fin : Nat → ifstream) (i : Nat) (hi : i < 10) :
    closeInputFiles fin i = (fin i).close := by
  unfold closeInputFiles
  rw [closeInputFilesLoop]
  simp [hi]

theorem close_isOpen (s : ifstream) : (s.close).isOpen = false := by
  unfold ifstream.close
  split_ifs with h
  · rfl
  · simpa using h

theorem close_of_not_open (s : ifstream) (h : s.isOpen = false) (hf : s.failbit = true) :
    s.close = s := by
  unfold ifstream.close
  simp only [h, Bool.false_eq_true, if_false]
  rw [← hf, ← h]

theorem validateFilesLoop_fin_failed (fin : Nat → ifstream) (image : image_t) (g : Nat → Int)
    (n i : Nat) (hi : i < n) (hf : (rewound fin i).fail = true) :
    (validateFilesLoop fin image g n).fin i = rewound fin i := by
  induction n with
  | zero => exact absurd hi (Nat.not_lt_zero i)
  | succ k ih =>
    rw [validateFilesLoop_succ]
    by_cases hik : i = k
    · subst hik
      have hfin := validateFilesLoop_fin_other fin image g i i (le_refl i)
      have hf' : ((((validateFilesLoop fin image g i).fin i).clear).seekgBeg).fail = true := by
        rw [hfin]; exact hf
      unfold validateFilesBody
      simp only [hf', if_true, setAt]
      rw [hfin]
      rfl
    · rw [validateFilesBody_fin_other g k i _ hik]
      exact ih (by omega)

theorem rewound_of_closed (fin : Nat → ifstream) (i : Nat) (h : (fin i).isOpen = false) :
    (rewound fin i).fail = true ∧ (rewound fin i).isOpen = false ∧
      (rewound fin i).failbit = true := by
  unfold rewound ifstream.seekgBeg ifstream.clear ifstream.fail
  simp [h]

theorem mainValidate_opened (name : List Char) (fs : FileSystem) (u : Indeterminate)
    (hv : (mainValidate name fs u).1 = true) : (mainOpened name fs).2 = EXIT_SUCCESS := by
  rw [mainOpened_exit]
  intro i hi
  unfold mainValidate at hv
  obtain ⟨hf, -⟩ := (validateFiles_true_iff _ _ _).mp hv i hi
  obtain ⟨-, -, ho⟩ := rewound_of_not_fail _ i hf
  have hfr := mainHeadersLoop_frame u
    ((mainOpened name fs).1, { width := 0, height := 0, data := u.data }) 10 i
  have ho' : ((mainHeaders name fs u).1 i).isOpen = ((mainOpened name fs).1 i).isOpen := hfr.2
  rw [ho', mainOpened_isOpen name fs i hi] at ho
  exact ho

theorem mainRun_closes (name : List Char) (fs : FileSystem) (u : Indeterminate) :
    (mainRun name fs u).calls.count Call.closeInputFiles = 1 ∧
    (mainRun name fs u).calls.getLast? = some Call.closeInputFiles ∧
    (∃ f, (mainRun name fs u).fin = closeInputFiles f ∧
      ((mainValidate name fs u).1 = false → f = (mainValidate name fs u).2.1)) := by
  cases hv : (mainValidate name fs u).1
  · have hfin : (mainRun name fs u).fin = closeInputFiles (mainValidate name fs u).2.1 := by
      unfold mainRun
      generalize mainValidate name fs u = v at hv ⊢
      obtain ⟨b, f, im⟩ := v
      simp only at hv
      subst hv
      rfl
    rw [(mainRun_of_invalid name fs u hv).2.1]
    exact ⟨by decide, rfl, _, hfin, fun _ => rfl⟩
  · have ho := mainValidate_opened name fs u hv
    have hfin : (mainRun name fs u).fin =
        closeInputFiles (processImageFiles (mainValidate name fs u).2.1
          (mainValidate name fs u).2.2 u.temp).fin := by
      unfold mainRun
      generalize mainValidate name fs u = v at hv ⊢
      generalize (mainOpened name fs).2 = e at ho ⊢
      obtain ⟨b, f, im⟩ := v
      simp only at hv
      subst hv
      subst ho
      simp only [Bool.not_true, Bool.false_eq_true, if_false, beq_self_eq_true, if_true]
    rw [(mainRun_of_valid name fs u hv ho).2]
    exact ⟨by decide, rfl, _, hfin, fun h => absurd h (by simp)⟩

/-- C19: in every run of `main` with `argc = 2`, `closeInputFiles` is called exactly once
and it is the last call before `main` returns, whether validation failed (also because a
file did not open) or the run went on to `processImageFiles` and `writeImage` (also when
the output file did not open); `closeInputFiles` applies `close()` once to each of the ten
streams, so none is open at exit; and a stream that never opened is left by it exactly as
it was. -/
theorem main_closes_once (argv : List (List Char)) (fs : FileSystem) (u : Indeterminate)
    (hlen : argv.length = 2) :
    (main argv fs u).calls.count Call.closeInputFiles = 1 ∧
    (main argv fs u).calls.getLast? = some Call.closeInputFiles ∧
    (∀ (f : Nat → ifstream), ∀ i < 10, closeInputFiles f i = (f i).close) ∧
    (∀ i < 10, ((main argv fs u).fin i).isOpen = false) ∧
    (∀ i < 10, fs.read (populateInputFileNames (argv.getD 1 []) i) = none →
      ((mainValidate (argv.getD 1 []) fs u).2.1 i).isOpen = false ∧
      (main argv fs u).fin i = (mainValidate (argv.getD 1 []) fs u).2.1 i) := by
  rw [main_of_two argv fs u hlen]
  obtain ⟨h1, h2, f, hf, hfv⟩ := mainRun_closes (argv.getD 1 []) fs u
  refine ⟨h1, h2, fun f i hi => closeInputFiles_apply f i hi, fun i hi => ?_, fun i hi hnone => ?_⟩
  · rw [hf, closeInputFiles_apply f i hi]
    exact close_isOpen _
  · have hclosed : ((mainHeaders (argv.getD 1 []) fs u).1 i).isOpen = false := by
      have hfr := mainHeadersLoop_frame u
        ((mainOpened (argv.getD 1 []) fs).1, { width := 0, height := 0, data := u.data }) 10 i
      have ho' : ((mainHeaders (argv.getD 1 []) fs u).1 i).isOpen =
          ((mainOpened (argv.getD 1 []) fs).1 i).isOpen := hfr.2
      rw [ho', mainOpened_isOpen _ fs i hi, hnone]
      rfl
    obtain ⟨r1, r2, r3⟩ := rewound_of_closed _ i hclosed
    have hvfalse : (mainValidate (argv.getD 1 []) fs u).1 = false := by
      cases hv : (mainValidate (argv.getD 1 []) fs u).1
      · rfl
      · have ho := mainValidate_opened _ fs u hv
        have := (mainOpened_exit _ fs).mp ho i hi
        rw [hnone] at this
        exact absurd this (by decide)
    have hstream : (mainValidate (argv.getD 1 []) fs u).2.1 i =
        rewound (mainHeaders (argv.getD 1 []) fs u).1 i := by
      unfold mainValidate
      have e1 : ∀ (f : Nat → ifstream) (im : image_t) (g : Nat → Int),
          (validateFiles f im g).2.1 = (validateFilesLoop f im g 10).fin := by
        intro f im g; simp only [validateFiles]
      rw [e1]
      exact validateFilesLoop_fin_failed _ _ _ 10 i hi r1
    rw [hf, hfv hvfalse, closeInputFiles_apply _ i hi, hstream]
    exact ⟨r2, close_of_not_open _ r2 r3⟩

/-- Witness for C19: a run in which no input file can be opened. -/
theorem main_closes_once_witness :
    (main [['a'], ['x']] { read := fun _ => none, writable := fun _ => true }
      zeroIndeterminate).calls.count Call.closeInputFiles = 1 ∧
    ∀ i < 10, ((main [['a'], ['x']] { read := fun _ => none, writable := fun _ => true }
      zeroIndeterminate).fin i).isOpen = false :=
  have h := main_closes_once [['a'], ['x']] { read := fun _ => none, writable := fun _ => true }
    zeroIndeterminate rfl
  ⟨h.1, h.2.2.2.1⟩

theorem extractInt_of_digits (s : ifstream) (v0 : Int) (ws ds r : List Char)
    (hs : s.good = true) (hrest : s.rest = ws ++ ds ++ r)
    (hws : ∀ c ∈ ws, isspace c = true) (hne : ds ≠ []) (hds : ∀ c ∈ ds, c.isDigit = true)
    (hr : ∀ c ∈ r.head?, c.isDigit = false) (hv : digitsVal ds ≤ 2147483647) :
    extractInt s v0 = (advance s r, (digitsVal ds : Int)) := by
  have hbody : ds ++ r ≠ [] := by simp [hne]
  have hsen := sentry_of_holds s ws (ds ++ r) hs (by rw [hrest, List.append_assoc]) hws hbody
    (head_digits_append ds r hne hds)
  have hscan := numScan_digits ds r hne hds hr
  have hne2 : ds.isEmpty = false := by cases ds <;> simp_all
  have h1 : ¬ ((digitsVal ds : Nat) : Int) < INT_MIN := by
    simp only [INT_MIN]; omega
  have h2 : ¬ ((digitsVal ds : Nat) : Int) > INT_MAX := by
    simp only [INT_MAX]; omega
  simp only [extractInt, hsen, hscan, if_true, hne2, Bool.false_eq_true, if_false, h1, h2,
    advance]

theorem readHeader_gluedFile (s : ifstream) (image : image_t) (g : Int)
    (hgood : s.good = true) (hrest : s.rest = gluedFile) :
    readHeader s image g =
      (true, advance s "x 1 2 3\n".toList, { image with width := 1, height := 1 }) := by
  have e0 := extractString_of_holds s [] P3 " 1 1 255x 1 2 3\n".toList hgood
    (by rw [hrest]; exact ⟨[], by decide, by decide, by decide, by decide, by decide⟩)
  have g1 : (advance s " 1 1 255x 1 2 3\n".toList).good = true :=
    advance_good s _ hgood (by decide)
  have e1 := extractUShort_of_holds (advance s " 1 1 255x 1 2 3\n".toList) image.width 1
    " 1 255x 1 2 3\n".toList g1
    ⟨[' '], ['1'], by rw [advance_rest]; decide, by decide, by decide, by decide, by decide,
      by decide⟩ (by decide)
  have g2 : (advance s " 1 255x 1 2 3\n".toList).good = true :=
    advance_good s _ hgood (by decide)
  have e2 := extractUShort_of_holds (advance s " 1 255x 1 2 3\n".toList) image.height 1
    " 255x 1 2 3\n".toList g2
    ⟨[' '], ['1'], by rw [advance_rest]; decide, by decide, by decide, by decide, by decide,
      by decide⟩ (by decide)
  have g3 : (advance s " 255x 1 2 3\n".toList).good = true :=
    advance_good s _ hgood (by decide)
  have e3 := extractInt_of_digits (advance s " 255x 1 2 3\n".toList) g [' '] ['2', '5', '5']
    "x 1 2 3\n".toList g3 (by rw [advance_rest]; decide) (by decide) (by decide) (by decide)
    (by decide) (by decide)
  simp only [advance_advance] at e1 e2 e3
  have hval : ((digitsVal ['2', '5', '5'] : Nat) : Int) = 255 := by decide
  rw [hval] at e3
  simp only [readHeader, e0, e1, e2, e3]
  have hif : (if (P3 != P3 || (255 : Int) != ((pixel_t.MAX_VAL : Nat) : Int) ||
      decide (1 > image_t.MAX_DIMENSION) || decide (1 > image_t.MAX_DIMENSION)) = true
      then false else true) = true := by decide
  rw [hif]

theorem headerResult_gluedFile (image : image_t) (g : Nat → Int) (i : Nat) :
    headerResult (streamsOf (fun _ => gluedFile)) image g i =
      (true, advance (streamOf gluedFile) "x 1 2 3\n".toList,
        { (validateFilesLoop (streamsOf (fun _ => gluedFile)) image g i).tempImage with
          width := 1, height := 1 }) := by
  have hrw : rewound (streamsOf (fun _ => gluedFile)) i = streamOf gluedFile := by
    rw [rewound_of_open _ i rfl]
    rfl
  unfold headerResult
  rw [hrw]
  exact readHeader_gluedFile (streamOf gluedFile) _ (g i) rfl rfl

/-- C5: on ten exposures `P3 1 1 255x 1 2 3`, whose fourth white-space-delimited token is
`255x`, `validateFiles` returns true whatever the uninitialised `maxVal` holds, and it
leaves every stream in the middle of that token, in front of `x`: the next `readPixel`
fails and does not read the pixel `1 2 3`. -/
theorem validateFiles_accepts_glued_maxval (image : image_t) (g : Nat → Int) :
    (validateFiles (streamsOf (fun _ => gluedFile)) image g).1 = true ∧
    ∀ i < 10,
      ((validateFiles (streamsOf (fun _ => gluedFile)) image g).2.1 i).rest =
        "x 1 2 3\n".toList ∧
      (readPixel ((validateFiles (streamsOf (fun _ => gluedFile)) image g).2.1 i)
        zeroPixel).1.failbit = true ∧
      (readPixel ((validateFiles (streamsOf (fun _ => gluedFile)) image g).2.1 i)
        zeroPixel).2 = zeroPixel := by
  have hok : ∀ i < 10, (rewound (streamsOf (fun _ => gluedFile)) i).fail = false :=
    fun i _ => rewound_ok_of_open _ i rfl
  refine ⟨?_, fun i hi => ?_⟩
  · rw [validateFiles_true_iff]
    intro i hi
    rw [headerResult_gluedFile image g i, headerResult_gluedFile image g 0]
    exact ⟨hok i hi, rfl, rfl, rfl⟩
  · have e1 : (validateFiles (streamsOf (fun _ => gluedFile)) image g).2.1 =
        (validateFilesLoop (streamsOf (fun _ => gluedFile)) image g 10).fin := by
      simp only [validateFiles]
    rw [e1, validateFilesLoop_fin_done _ image g 10 i hi (hok i hi),
      headerResult_gluedFile image g i]
    have h1 : (readPixel (advance (streamOf gluedFile) "x 1 2 3\n".toList) zeroPixel).1.failbit =
        true := by decide
    have h2 : (readPixel (advance (streamOf gluedFile) "x 1 2 3\n".toList) zeroPixel).2 =
        zeroPixel := by decide
    exact ⟨rfl, h1, h2⟩

end Sharpener
